import Mathlib

/-!
Verification development for the NGPhylogeny blast job-lifecycle module
(`blast/tasks.py`).  The Python source is shallowly embedded: pure string
processing (`newick_clean`, the e-mail pattern check, the hit filter) becomes
executable Lean functions on `List Char` / `ℚ`, and each celery task becomes a
function from an explicit environment (the outcomes of every effectful call,
each of which may raise) to the task's observable result (final record state,
persisted snapshots, notifications, escaped exception).
-/

namespace NGPhylo

/-! ## Character classes (Python `re` semantics, ASCII fragment) -/

/-- Python `\s` on the inputs at hand: space, tab, newline, CR, VT, FF. -/
def isPySpace (c : Char) : Bool :=
  c = ' ' || c = '\t' || c = '\n' || c = '\r' || c = '\x0b' || c = '\x0c'

/-- Python `\w` (ASCII fragment): letters, digits, underscore. -/
def isWordChar (c : Char) : Bool :=
  c.isAlpha || c.isDigit || c = '_'

/-- Python `.` (no DOTALL): any character except newline. -/
def isDotChar (c : Char) : Bool := c ≠ '\n'

/-! ## Small generic matching helpers -/

/-- Match a list of character predicates as a literal prefix; return the rest. -/
def matchPreds : List (Char → Bool) → List Char → Option (List Char)
  | [], l => some l
  | _ :: _, [] => none
  | p :: ps, c :: cs => if p c then matchPreds ps cs else none

/-- Case-insensitive single character (used for the `(?i)` literal). -/
def ciChar (lo up : Char) (c : Char) : Bool := c = lo || c = up

/-- Generic global substitution with the empty string, driven by a
"match length at this position" function, scanning left to right like
`re.sub`; fuel bounds the recursion (all our patterns match ≥ 1 char). -/
def subAllAux (mL : List Char → Option Nat) : Nat → List Char → List Char
  | 0, l => l
  | _ + 1, [] => []
  | n + 1, c :: cs =>
    match mL (c :: cs) with
    | some m => subAllAux mL n (List.drop m (c :: cs))
    | none => c :: subAllAux mL n cs

def subAll (mL : List Char → Option Nat) (l : List Char) : List Char :=
  subAllAux mL l.length l

/-- Python `str.replace(pat, "")` for a non-empty pattern: delete every
occurrence, scanning left to right. -/
def replaceDelAux (pat : List Char) : Nat → List Char → List Char
  | 0, l => l
  | _ + 1, [] => []
  | n + 1, c :: cs =>
    if pat.isPrefixOf (c :: cs) then
      replaceDelAux pat n (List.drop pat.length (c :: cs))
    else
      c :: replaceDelAux pat n cs

def replaceDel (pat l : List Char) : List Char :=
  replaceDelAux pat l.length l

/-! ## `re.sub(r"\s*(?i)[^\s]*\|BL_ORD_ID\|\d+\s*", "", seqname)` -/

/-- The `(?i)` literal `|BL_ORD_ID|` as character predicates. -/
def blOrdLit : List (Char → Bool) :=
  [fun c => c = '|', ciChar 'b' 'B', ciChar 'l' 'L', fun c => c = '_',
   ciChar 'o' 'O', ciChar 'r' 'R', ciChar 'd' 'D', fun c => c = '_',
   ciChar 'i' 'I', ciChar 'd' 'D', fun c => c = '|']

/-- Try the literal, then `\d+` (≥ 1, greedy), then trailing `\s*`;
returns the total length consumed from the given point. -/
def blOrdLitDigits (l : List Char) : Option Nat :=
  match matchPreds blOrdLit l with
  | none => none
  | some rest =>
    let d := (rest.takeWhile Char.isDigit).length
    if d = 0 then none
    else some (11 + d + ((rest.drop d).takeWhile isPySpace).length)

/-- Greedy `[^\s]*`: try the largest offset `k` first (backtracking). -/
def blOrdTryK (l1 : List Char) : Nat → Option (Nat × Nat)
  | 0 =>
    match blOrdLitDigits l1 with
    | some len2 => some (0, len2)
    | none => none
  | k + 1 =>
    match blOrdLitDigits (l1.drop (k + 1)) with
    | some len2 => some (k + 1, len2)
    | none => blOrdTryK l1 k

/-- Match length of `\s*[^\s]*\|BL_ORD_ID\|\d+\s*` anchored at this position. -/
def blOrdMatchLen (l : List Char) : Option Nat :=
  let w := (l.takeWhile isPySpace).length
  let l1 := l.drop w
  match blOrdTryK l1 (l1.takeWhile (fun c => !isPySpace c)).length with
  | some (k, len2) => some (w + k + len2)
  | none => none

def blOrdSub (l : List Char) : List Char := subAll blOrdMatchLen l

/-! ## `re.search(r"(\[(.+?)\])", seqname)` -/

/-- Lazy `(.+?)\]` after an opening bracket: stop at the first `]` after at
least one non-newline character. Returns the inner capture. -/
def lazyInnerGo (acc : List Char) : List Char → Option (List Char)
  | [] => none
  | d :: ds =>
    if d = ']' then some acc.reverse
    else if d = '\n' then none
    else lazyInnerGo (d :: acc) ds

def lazyInner : List Char → Option (List Char)
  | [] => none
  | c :: cs => if c = '\n' then none else lazyInnerGo [c] cs

/-- Leftmost `\[(.+?)\]`; returns (group 1, group 2). -/
def bracketSearch : List Char → Option (List Char × List Char)
  | [] => none
  | c :: cs =>
    if c = '[' then
      match lazyInner cs with
      | some inner => some ('[' :: (inner ++ [']']), inner)
      | none => bracketSearch cs
    else bracketSearch cs

/-! ## `re.search(r"(PREDICTED: (\w+ \w+))", seqname)` -/

/-- Case-sensitive literal prefix match; returns the rest. -/
def litMatch : List Char → List Char → Option (List Char)
  | [], l => some l
  | _ :: _, [] => none
  | p :: ps, c :: cs => if c = p then litMatch ps cs else none

def predictedLit : List Char :=
  ['P', 'R', 'E', 'D', 'I', 'C', 'T', 'E', 'D', ':', ' ']

/-- `\w+ \w+` at this position (greedy word runs, literal space). -/
def twoWords (l : List Char) : Option (List Char) :=
  let w1 := l.takeWhile isWordChar
  if w1 = [] then none
  else
    match l.drop w1.length with
    | ' ' :: after =>
      let w2 := after.takeWhile isWordChar
      if w2 = [] then none else some (w1 ++ ' ' :: w2)
    | _ => none

def predictedAt (l : List Char) : Option (List Char × List Char) :=
  match litMatch predictedLit l with
  | none => none
  | some rest =>
    match twoWords rest with
    | none => none
    | some g2 => some (predictedLit ++ g2, g2)

def predictedSearch : List Char → Option (List Char × List Char)
  | [] => none
  | c :: cs =>
    match predictedAt (c :: cs) with
    | some r => some r
    | none => predictedSearch cs

/-! ## `re.search(r"^[^\s]+( (\w+ \w+))", seqname)` (anchored) -/

def headSpeciesSearch (l : List Char) : Option (List Char × List Char) :=
  let tok := l.takeWhile (fun c => !isPySpace c)
  if tok = [] then none
  else
    match l.drop tok.length with
    | ' ' :: after =>
      match twoWords after with
      | none => none
      | some g2 => some (' ' :: g2, g2)
    | _ => none

/-! ## `re.sub(r"\s\(.*\)", "", species)` -/

/-- Index (within the non-newline segment) of the last `)`, for greedy `.*`. -/
def lastClose (seg : List Char) : Option Nat :=
  seg.foldl (fun (st : Nat × Option Nat) c =>
    (st.1 + 1, if c = ')' then some st.1 else st.2)) (0, none) |>.2

def parenSubMatchLen (l : List Char) : Option Nat :=
  match l with
  | c :: '(' :: rest =>
    if isPySpace c then
      match lastClose (rest.takeWhile isDotChar) with
      | some j => some (2 + j + 1)
      | none => none
    else none
  | _ => none

def speciesParenSub (l : List Char) : List Char := subAll parenSubMatchLen l

/-! ## `re.search(r"sp\|[^\s]*\|([\w_]+)", seqname)` -/

/-- `\|([\w_]+)` at offset `k`. -/
def spBarWord (rest : List Char) (k : Nat) : Option (List Char) :=
  match rest.drop k with
  | '|' :: after =>
    let w := after.takeWhile isWordChar
    if w = [] then none else some w
  | _ => none

/-- Greedy `[^\s]*\|([\w_]+)`: try the largest split first. -/
def spTryK (rest : List Char) : Nat → Option (List Char)
  | 0 => spBarWord rest 0
  | k + 1 =>
    match spBarWord rest (k + 1) with
    | some w => some w
    | none => spTryK rest k

def spGeneAt : List Char → Option (List Char)
  | 's' :: 'p' :: '|' :: rest =>
    spTryK rest (rest.takeWhile (fun c => !isPySpace c)).length
  | _ => none

def spGeneSearch : List Char → Option (List Char)
  | [] => none
  | c :: cs =>
    match spGeneAt (c :: cs) with
    | some g => some g
    | none => spGeneSearch cs

/-! ## `re.findall(r"\((\w+)\)", seqname)` — first capture only -/

def parenGene : List Char → Option (List Char)
  | [] => none
  | c :: cs =>
    if c = '(' then
      let w := cs.takeWhile isWordChar
      if w ≠ [] ∧ (cs.drop w.length).head? = some ')' then some w
      else parenGene cs
    else parenGene cs

/-! ## Final cleanup chain -/

/-- `out.split(" ")[0]`. -/
def firstSpaceTok (l : List Char) : List Char := l.takeWhile (fun c => c ≠ ' ')

/-- The eight characters replaced by `_` in sequence in the source. -/
def replacedChars : List Char := ['[', ']', '(', ')', ',', ';', ' ', ':']

/-- The eight sequential `str.replace(c, "_")` calls as one map (the targets
are pairwise distinct and `_` is not among them, so the sequential replaces
commute into a single simultaneous map). -/
def cleanChar (c : Char) : Char := if c ∈ replacedChars then '_' else c

/-- `re.sub(r"_+", "_", out)`. -/
def collapseUnd : List Char → List Char
  | [] => []
  | c :: rest =>
    match rest with
    | [] => [c]
    | d :: _ =>
      if c = '_' ∧ d = '_' then collapseUnd rest else c :: collapseUnd rest

/-- `re.sub(r"_$", "", out)` — removes one trailing underscore. -/
def stripTrailUnd : List Char → List Char
  | [] => []
  | c :: rest =>
    match rest with
    | [] => if c = '_' then [] else [c]
    | _ :: _ => c :: stripTrailUnd rest

/-! ## `newick_clean` -/

/-- Species extraction: the three patterns in priority order, as in the
source (bracket, then PREDICTED, then head token + two words). -/
def speciesSearch (l : List Char) : Option (List Char × List Char) :=
  match bracketSearch l with
  | some r => some r
  | none =>
    match predictedSearch l with
    | some r => some r
    | none => headSpeciesSearch l

/-- The name after BL_ORD_ID stripping and species-span removal, together
with the `_`-prefixed species (before its parenthetical-suffix sub). -/
def newickStage1 (l : List Char) : List Char × List Char :=
  match speciesSearch (blOrdSub l) with
  | some (g1, g2) => (replaceDel g1 (blOrdSub l), '_' :: g2)
  | none => (blOrdSub l, [])

/-- Gene extraction: `sp|…|word` first, else the first `(word)` group. -/
def geneSearch (l : List Char) : List Char :=
  match spGeneSearch l with
  | some g => g
  | none =>
    match parenGene l with
    | some w => '_' :: w
    | none => []

/-- The raw composed label `seqname.split(" ")[0] + gene + species`,
before the character cleanup chain. -/
def rawLabel (l : List Char) : List Char :=
  firstSpaceTok (newickStage1 l).1 ++ geneSearch (newickStage1 l).1 ++
    speciesParenSub (newickStage1 l).2

/-- The character cleanup chain (lines 359–368). -/
def cleanOut (l : List Char) : List Char :=
  stripTrailUnd (collapseUnd (l.map cleanChar))

/-- `newick_clean` from `blast/tasks.py` (lines 327–370). -/
def newick_clean (s : String) : String :=
  ⟨cleanOut (rawLabel s.data)⟩

/-! ## Cleanliness predicates used in the statements about `newick_clean` -/

/-- No two consecutive underscores. -/
def noDoubleUnd : List Char → Bool
  | [] => true
  | c :: rest =>
    match rest with
    | [] => true
    | d :: _ => !(c = '_' && d = '_') && noDoubleUnd rest

/-- The last character is an underscore. -/
def endsWithUnd : List Char → Bool
  | [] => false
  | c :: rest =>
    match rest with
    | [] => c = '_'
    | _ :: _ => endsWithUnd rest

/-! ## `re.match(r"[^@]+@[^@]+\.[^@]+", email)` — prefix match, backtracking -/

/-- After at least one `[^@]` char of the middle part: either a `.` followed
by a non-`@` char, or extend the middle with another non-`@` char. -/
def dotAfter : List Char → Bool
  | [] => false
  | c :: rest =>
    (c = '.' && (match rest with
                 | [] => false
                 | d :: _ => d ≠ '@'))
    || (c ≠ '@' && dotAfter rest)

/-- `[^@]+\.[^@]+` as a prefix. -/
def dotPart : List Char → Bool
  | [] => false
  | b :: rest => b ≠ '@' && dotAfter rest

/-- `@[^@]+\.[^@]+` after at least one leading non-`@` char. -/
def atPart : List Char → Bool
  | [] => false
  | c :: rest => (c = '@' && dotPart rest) || (c ≠ '@' && atPart rest)

/-- `re.match(r"[^@]+@[^@]+\.[^@]+", s)` from `blast/tasks.py` lines 85 / 275. -/
def email_match (s : String) : Bool :=
  match s.data with
  | [] => false
  | c :: rest => c ≠ '@' && atPart rest

/-- `b.email is not None and re.match(...)`. -/
def validEmail : Option String → Bool
  | none => false
  | some s => email_match s

/-! ## Data model: job records, hits, statuses

`BlastRun` / `BlastSubject` live in `blast/models.py`, which is not under
`src/`; only the fields and status constants the tasks read and write are
modelled here, following the spec (§3 Job Record). -/

inductive JobStatus
  | PENDING | RUNNING | FINISHED | ERROR
deriving DecidableEq, Repr

inductive ServerKind
  | NCBI | PASTEUR
deriving DecidableEq, Repr

/-- An exception value: only its `str(e)` text is observable to the tasks. -/
structure Exc where
  msg : String
deriving DecidableEq, Repr

/-- Modelled from the spec: the Job Record (`BlastRun`) fields that the
lifecycle tasks read and write (`blast/models.py` is not under `src/`). -/
structure BlastRunRec where
  status : JobStatus
  message : String
  tree : String
  query_id : String
  query_seq : String
  evalue : ℚ
  coverage : ℚ
  database : String
  blastprog : String
  email : Option String
  history : String
  history_fileid : String
  server : ServerKind
  deleted : Bool
deriving DecidableEq, Repr

/-- One parsed FASTA record (`Bio.SeqIO`): header id and sequence. -/
structure FastaRec where
  id : String
  seq : String
deriving DecidableEq, Repr

/-- One high-scoring pair of a blast alignment: expectation value and
aligned length (numbers modelled as rationals). -/
structure HSP where
  expect : ℚ
  align_length : ℚ
deriving DecidableEq, Repr

structure BlastAlignment where
  title : String
  hsps : List HSP
deriving DecidableEq, Repr

structure BlastRecord where
  query_length : ℚ
  alignments : List BlastAlignment
deriving DecidableEq, Repr

/-! ## Hit filter (`blast/tasks.py` lines 62–69 and 250–257)

Both backend paths run the same triple loop with the same condition
`e_val < evalue and align_length / query_length >= coverage`. -/

/-- The per-hit decision of both loops. -/
def hspKept (evalue coverage query_length : ℚ) (h : HSP) : Bool :=
  decide (h.expect < evalue) && decide (h.align_length / query_length ≥ coverage)

/-- Hits of one alignment that get `msa.add_hsp`-ed. -/
def keptHsps (evalue coverage query_length : ℚ) (a : BlastAlignment) : List HSP :=
  a.hsps.filter (hspKept evalue coverage query_length)

/-- All `add_hsp` calls of one run: `(name, hsp)` per retained hit, in loop
order.  `PseudoMSA.add_hsp` itself lives in `blast/msa.py`, which is not
under `src/`; modelled from the spec, registration of a hit in the
Collected-Sequence Set is the corresponding call recorded here.  `nameOf`
is the raw-name function, which differs between the two paths. -/
def addHspCalls (nameOf : BlastAlignment → String) (evalue coverage : ℚ)
    (recs : List BlastRecord) : List (String × HSP) :=
  (recs.map (fun r =>
    (r.alignments.map (fun a =>
      (keptHsps evalue coverage r.query_length a).map (fun h => (nameOf a, h)))).flatten)).flatten

/-- `"More than one record in the fasta file! %d" % n`. -/
def countMsg (n : Nat) : String :=
  "More than one record in the fasta file! " ++ toString n

/-- `records[0].id.split(" ")[0]` on a `String`. -/
def firstSpaceTokStr (s : String) : String := ⟨firstSpaceTok s.data⟩

/-! ## Task: `launch_ncbi_blast` (`blast/tasks.py` lines 40–114)

Every effectful call inside the task is an environment field holding the
outcome that call would have (a value, or a raised exception). -/

structure NcbiEnv where
  /-- `BlastRun.objects.get(id=blastrunid)` — before the `try`. -/
  getRun : Except Exc BlastRunRec
  /-- `list(SeqIO.parse(StringIO(sequence), "fasta"))`. -/
  parse : Except Exc (List FastaRec)
  /-- `b.save()` at line 58. -/
  save1 : Option Exc
  /-- `NCBIWWW.qblast` + `NCBIXML.parse` + iterating the records. -/
  qblast : Except Exc (List BlastRecord)
  /-- any `BlastSubject(...).save()` in the loop at lines 71–75. -/
  subjectSave : Option Exc
  /-- `b.build_nj_tree()` (method on the model, not under `src/`). -/
  njTree : Except Exc String
  /-- `b.save()` at line 79. -/
  save2 : Option Exc
  /-- `send_mail(...)` — its exceptions are caught and only logged. -/
  sendMail : Option Exc
  /-- `b.save()` at line 113, after the `try/except`. -/
  save3 : Option Exc

structure NcbiResult where
  /-- in-memory record when the task ends (`none` if the fetch raised). -/
  b : Option BlastRunRec
  /-- `add_hsp` calls made (empty when the success path was not completed). -/
  subjects : List (String × HSP)
  /-- whether `send_mail` was invoked. -/
  mailed : Bool
  /-- exception propagating out of the task, if any. -/
  escaped : Option Exc
deriving DecidableEq, Repr

/-- The e-mail block at lines 85–108: runs `send_mail` iff the address is
present and matches; any exception from it is caught and logged. -/
def ncbiMailStep (env : NcbiEnv) (b : BlastRunRec) (subjects : List (String × HSP)) :
    Except (BlastRunRec × Exc) (BlastRunRec × List (String × HSP) × Bool) :=
  if validEmail b.email then
    match env.sendMail with
    | some _ => .ok (b, subjects, true)   -- SMTPException / Exception: logged, swallowed
    | none => .ok (b, subjects, true)
  else .ok (b, subjects, false)

/-- The `try` block of `launch_ncbi_blast` (lines 47–108).  An `.error`
carries the in-memory record at the point of the raise. -/
def ncbiTry (env : NcbiEnv) (prog db : String) (evalue coverage : ℚ)
    (b0 : BlastRunRec) :
    Except (BlastRunRec × Exc) (BlastRunRec × List (String × HSP) × Bool) :=
  match env.parse with
  | .error e => .error (b0, e)
  | .ok records =>
    match records with
    | [r] =>
      let b1 := { b0 with
        query_id := firstSpaceTokStr r.id, query_seq := r.seq,
        evalue := evalue, coverage := coverage, database := db,
        blastprog := prog, status := JobStatus.RUNNING }
      match env.save1 with
      | some e => .error (b1, e)
      | none =>
        match env.qblast with
        | .error e => .error (b1, e)
        | .ok brecs =>
          let subjects :=
            addHspCalls (fun a => firstSpaceTokStr a.title) evalue coverage brecs
          match env.subjectSave with
          | some e => .error (b1, e)
          | none =>
            match env.njTree with
            | .error e => .error (b1, e)
            | .ok t =>
              let b2 := { b1 with tree := t, status := JobStatus.FINISHED }
              match env.save2 with
              | some e => .error (b2, e)
              | none => ncbiMailStep env b2 subjects
    | _ =>
      let b1 := { b0 with
        status := JobStatus.ERROR, message := countMsg records.length }
      ncbiMailStep env b1 []

/-- `launch_ncbi_blast`. -/
def launch_ncbi_blast (env : NcbiEnv) (prog db : String) (evalue coverage : ℚ) :
    NcbiResult :=
  match env.getRun with
  | .error e => { b := none, subjects := [], mailed := false, escaped := some e }
  | .ok b0 =>
    match ncbiTry env prog db evalue coverage b0 with
    | .ok (b, subjects, mailed) =>
      match env.save3 with
      | some e =>
        { b := some b, subjects := subjects, mailed := mailed, escaped := some e }
      | none =>
        { b := some b, subjects := subjects, mailed := mailed, escaped := none }
    | .error (b1, e) =>
      let b2 := { b1 with status := JobStatus.ERROR, message := e.msg }
      match env.save3 with
      | some e2 => { b := some b2, subjects := [], mailed := false, escaped := some e2 }
      | none => { b := some b2, subjects := [], mailed := false, escaped := none }

/-! ## Task: `launch_pasteur_blast` (`blast/tasks.py` lines 116–178) -/

/-- `is_fasta_one_seq` (lines 308–324): count the parsed records, `true`
iff exactly one; any exception yields `false`. -/
def is_fasta_one_seq (parsed : Except Exc (List FastaRec)) : Bool :=
  match parsed with
  | .error _ => false
  | .ok rs => rs.length == 1

structure PasteurEnv where
  /-- `BlastRun.objects.get(id=blastrunid)` — before the `try`. -/
  getRun : Except Exc BlastRunRec
  /-- `list(SeqIO.parse(StringIO(sequence), "fasta"))`. -/
  parse : Except Exc (List FastaRec)
  /-- `galaxy_connection()` at line 127. -/
  galaxyConn : Option Exc
  /-- `galaxycon.histories.create_history(...)` → history id. -/
  createHistory : Except Exc String
  /-- `b.save()` at line 139. -/
  save1 : Option Exc
  /-- Modelled from the spec: `BlastRun.blast_type(BlastRun.PASTEUR, prog)`
  (`blast/models.py` is not under `src/`) — the backend job-type mapping,
  `none` when the program has no mapping. -/
  blast_type : Option String
  /-- `tempfile.NamedTemporaryFile()` + `write` + `flush`. -/
  tmpWrite : Option Exc
  /-- `SeqIO.parse(tmp_file.name, "fasta")` inside `is_fasta_one_seq`. -/
  parseFile : Except Exc (List FastaRec)
  /-- `galaxycon.tools.upload_file(...)` → uploaded file id. -/
  upload : Except Exc String
  /-- `galaxycon.tools.run_tool(...)` → output file id. -/
  runTool : Except Exc String
  /-- `b.save()` at line 168. -/
  save2 : Option Exc
  /-- `b.save()` at line 177, after the `try/except`. -/
  save3 : Option Exc

structure PasteurResult where
  b : Option BlastRunRec
  /-- `send_mail` is never called in this task. -/
  mailed : Bool
  escaped : Option Exc
deriving DecidableEq, Repr

/-- The `try` block of `launch_pasteur_blast` (lines 123–172). -/
def pasteurTry (env : PasteurEnv) (prog db : String) (evalue coverage : ℚ)
    (b0 : BlastRunRec) : Except (BlastRunRec × Exc) BlastRunRec :=
  match env.parse with
  | .error e => .error (b0, e)
  | .ok records =>
    match records with
    | [r] =>
      match env.galaxyConn with
      | some e => .error (b0, e)
      | none =>
        match env.createHistory with
        | .error e => .error (b0, e)
        | .ok hid =>
          let b1 := { b0 with
            history := hid, query_id := firstSpaceTokStr r.id, query_seq := r.seq,
            evalue := evalue, coverage := coverage, database := db,
            blastprog := prog, status := JobStatus.PENDING }
          match env.save1 with
          | some e => .error (b1, e)
          | none =>
            match env.blast_type with
            | some _bt =>
              match env.tmpWrite with
              | some e => .error (b1, e)
              | none =>
                if is_fasta_one_seq env.parseFile then
                  match env.upload with
                  | .error e => .error (b1, e)
                  | .ok _fileId =>
                    match env.runTool with
                    | .error e => .error (b1, e)
                    | .ok outId =>
                      let b2 := { b1 with history_fileid := outId }
                      match env.save2 with
                      | some e => .error (b2, e)
                      | none => .ok b2
                else
                  let b2 := { b1 with
                    status := JobStatus.ERROR,
                    message := "Bad input FASTA file format" }
                  match env.save2 with
                  | some e => .error (b2, e)
                  | none => .ok b2
            | none =>
              let b2 := { b1 with
                status := JobStatus.ERROR,
                message := "Wrong blast program " ++ prog }
              match env.save2 with
              | some e => .error (b2, e)
              | none => .ok b2
    | _ =>
      .ok { b0 with
            status := JobStatus.ERROR, message := countMsg records.length }

/-- `launch_pasteur_blast`. -/
def launch_pasteur_blast (env : PasteurEnv) (prog db : String)
    (evalue coverage : ℚ) : PasteurResult :=
  match env.getRun with
  | .error e => { b := none, mailed := false, escaped := some e }
  | .ok b0 =>
    match pasteurTry env prog db evalue coverage b0 with
    | .ok b =>
      match env.save3 with
      | some e => { b := some b, mailed := false, escaped := some e }
      | none => { b := some b, mailed := false, escaped := none }
    | .error (b1, e) =>
      let b2 := { b1 with status := JobStatus.ERROR, message := e.msg }
      match env.save3 with
      | some e2 => { b := some b2, mailed := false, escaped := some e2 }
      | none => { b := some b2, mailed := false, escaped := none }

/-! ## Task: `build_tree` (`blast/tasks.py` lines 181–195) -/

structure BuildEnv where
  /-- `BlastRun.objects.get(id=blastrunid)` — inside the `try` here. -/
  getRun : Except Exc BlastRunRec
  /-- `b.save()` at line 187. -/
  save1 : Option Exc
  /-- `b.build_nj_tree()`. -/
  njTree : Except Exc String
  /-- `b.save()` at line 190. -/
  save2 : Option Exc
  /-- `b.save()` at line 195, inside the `except` handler. -/
  saveH : Option Exc

structure BuildResult where
  b : Option BlastRunRec
  escaped : Option Exc
deriving DecidableEq, Repr

/-- The `try` block of `build_tree`.  An `.error` carrying `none` means the
record fetch itself raised, so the handler's reference to `b` raises a
`NameError`. -/
def buildTry (env : BuildEnv) :
    Except (Option BlastRunRec × Exc) BlastRunRec :=
  match env.getRun with
  | .error e => .error (none, e)
  | .ok b0 =>
    let b1 := { b0 with status := JobStatus.RUNNING, tree := "" }
    match env.save1 with
    | some e => .error (some b1, e)
    | none =>
      match env.njTree with
      | .error e => .error (some b1, e)
      | .ok t =>
        let b2 := { b1 with tree := t, status := JobStatus.FINISHED }
        match env.save2 with
        | some e => .error (some b2, e)
        | none => .ok b2

/-- `build_tree`. -/
def build_tree (env : BuildEnv) : BuildResult :=
  match buildTry env with
  | .ok b2 => { b := some b2, escaped := none }
  | .error (none, _e) =>
    -- handler line 193 reads the unbound local `b`: a NameError propagates
    { b := none, escaped := some { msg := "NameError" } }
  | .error (some b1, e) =>
    let b2 := { b1 with status := JobStatus.ERROR, message := e.msg }
    match env.saveH with
    | some e2 => { b := some b2, escaped := some e2 }
    | none => { b := some b2, escaped := none }

/-! ## Task: `checkblastruns` (`blast/tasks.py` lines 212–306) -/

/-- Per-record effect outcomes for one poll-cycle record. -/
structure PollRecEnv where
  /-- `galaxycon.histories.show_dataset(...)` → `(state, misc_info)`. -/
  showDataset : Except Exc (String × String)
  /-- `download_dataset` + `open` (state `"ok"` path). -/
  download : Option Exc
  /-- `NCBIXML.parse` + iterating it. -/
  parseXml : Except Exc (List BlastRecord)
  /-- any `BlastSubject(...).save()` in the loop at lines 259–263. -/
  subjectSave : Option Exc
  /-- `b.build_nj_tree()`. -/
  njTree : Except Exc String
  /-- `b.save()` at line 266. -/
  saveMid : Option Exc
  /-- `b.save()` at line 273. -/
  saveEnd : Option Exc
  /-- `send_mail` — its exceptions are caught and only logged. -/
  sendMail : Option Exc

structure PollEnv where
  /-- `cache.add(lock_id, "true", LOCK_EXPIRE)` — `true` iff acquired. -/
  lockFree : Bool
  /-- `galaxy_connection()` at line 231 (before the loop). -/
  galaxyConn : Option Exc
  /-- all `BlastRun` rows. -/
  db : List BlastRunRec
  /-- effect outcomes for the i-th filtered record. -/
  recEnv : Nat → PollRecEnv
  /-- `b.save()` at line 302, inside the `except` handler. -/
  handlerSave : Option Exc

/-- The queryset filter at line 234: not deleted, pasteur server, status
PENDING or RUNNING. -/
def pollFilter (db : List BlastRunRec) : List BlastRunRec :=
  db.filter (fun b => !b.deleted && b.server == ServerKind.PASTEUR &&
    (b.status == JobStatus.PENDING || b.status == JobStatus.RUNNING))

/-- The state branch of one poll-loop iteration (lines 241–272): returns
the record after the branch together with whether line 266 already
persisted it (only on the `"ok"` path), or the in-flight failure. -/
def pollBranch (env : PollRecEnv) (b : BlastRunRec) (st infos : String) :
    Except (BlastRunRec × BlastRunRec × Exc) (BlastRunRec × Bool) :=
  if st = "ok" then
    let bF := { b with message := infos, status := JobStatus.FINISHED }
    match env.download with
    | some e => .error (b, bF, e)
    | none =>
      match env.parseXml with
      | .error e => .error (b, bF, e)
      | .ok brecs =>
        let _subjects :=
          addHspCalls (fun a => newick_clean a.title) b.evalue b.coverage brecs
        match env.subjectSave with
        | some e => .error (b, bF, e)
        | none =>
          match env.njTree with
          | .error e => .error (b, bF, e)
          | .ok t =>
            let bT := { bF with tree := t, status := JobStatus.FINISHED }
            match env.saveMid with
            | some e => .error (b, bT, e)
            | none => .ok (bT, true)
  else if st = "queued" ∨ st = "new" then
    .ok ({ b with message := infos, status := JobStatus.PENDING }, false)
  else if st = "running" then
    .ok ({ b with message := infos, status := JobStatus.RUNNING }, false)
  else
    .ok ({ b with message := infos, status := JobStatus.ERROR }, false)

/-- The save at line 273 and the e-mail block at lines 275–298. -/
def pollSaveMail (env : PollRecEnv) (b b2 : BlastRunRec) (midSaved : Bool) :
    Except (BlastRunRec × BlastRunRec × Exc) (BlastRunRec × Bool) :=
  match env.saveEnd with
  | some e => .error (if midSaved then b2 else b, b2, e)
  | none =>
    if validEmail b2.email &&
       (b2.status == JobStatus.ERROR || b2.status == JobStatus.FINISHED) then
      match env.sendMail with
      | some _ => .ok (b2, true)   -- exception logged, swallowed
      | none => .ok (b2, true)
    else .ok (b2, false)

/-- One iteration of the poll loop (lines 236–298) for record `b`.
`.ok` carries the record as last persisted by line 273 plus whether
`send_mail` was invoked; `.error` carries the last state persisted for
this record, the in-memory record at the point of the raise, and the
exception. -/
def pollRecord (env : PollRecEnv) (b : BlastRunRec) :
    Except (BlastRunRec × BlastRunRec × Exc) (BlastRunRec × Bool) :=
  match env.showDataset with
  | .error e => .error (b, b, e)
  | .ok (st, infos) =>
    match pollBranch env b st infos with
    | .error r => .error r
    | .ok (b2, midSaved) => pollSaveMail env b b2 midSaved

/-- The poll loop over the filtered records; on an exception it stops and
returns the failing record's last persisted state, its in-memory state,
the exception, and the untouched remaining records. -/
def pollLoop (recEnv : Nat → PollRecEnv) :
    Nat → List BlastRunRec →
    List BlastRunRec × List Bool ×
      Option (BlastRunRec × BlastRunRec × Exc × List BlastRunRec)
  | _, [] => ([], [], none)
  | i, b :: rest =>
    match pollRecord (recEnv i) b with
    | .ok (b2, m) =>
      let (fs, ms, exc) := pollLoop recEnv (i + 1) rest
      (b2 :: fs, m :: ms, exc)
    | .error (lastP, bMem, e) => ([], [], some (lastP, bMem, e, rest))

structure PollResult where
  /-- final states of the filtered records, in order (persisted state, or
  the prior state for records the cycle did not reach). -/
  finals : List BlastRunRec
  /-- per processed record: whether `send_mail` was invoked. -/
  mails : List Bool
  /-- whether `release_lock()` was reached. -/
  lockReleased : Bool
  /-- whether the lock was acquired and the cycle body ran. -/
  ran : Bool
  escaped : Option Exc
deriving DecidableEq, Repr

/-- `checkblastruns`. -/
def checkblastruns (env : PollEnv) : PollResult :=
  if !env.lockFree then
    { finals := pollFilter env.db, mails := [], lockReleased := false,
      ran := false, escaped := none }
  else
    match env.galaxyConn with
    | some _e =>
      -- handler line 300 reads the unbound loop variable `b`: NameError
      -- propagates and `release_lock()` at line 305 is never reached
      { finals := pollFilter env.db, mails := [], lockReleased := false,
        ran := true, escaped := some { msg := "NameError" } }
    | none =>
      match pollLoop env.recEnv 0 (pollFilter env.db) with
      | (fs, ms, none) =>
        { finals := fs, mails := ms, lockReleased := true, ran := true,
          escaped := none }
      | (fs, ms, some (lastP, bMem, e, rest)) =>
        let bH := { bMem with status := JobStatus.ERROR, message := e.msg }
        match env.handlerSave with
        | some e2 =>
          { finals := fs ++ lastP :: rest, mails := ms, lockReleased := false,
            ran := true, escaped := some e2 }
        | none =>
          { finals := fs ++ bH :: rest, mails := ms, lockReleased := true,
            ran := true, escaped := none }

/-! ## Hypothesis bundles (exception texts are non-empty; trees are
non-empty, the latter modelled from the spec for `build_nj_tree`, which
lives in `blast/models.py`, not under `src/`) -/

/-- Every exception a `launch_ncbi_blast` environment can raise inside the
`try` block has non-empty text. -/
def NcbiExcMsgs (env : NcbiEnv) : Prop :=
  (∀ e, env.parse = .error e → e.msg ≠ "") ∧
  (∀ e, env.save1 = some e → e.msg ≠ "") ∧
  (∀ e, env.qblast = .error e → e.msg ≠ "") ∧
  (∀ e, env.subjectSave = some e → e.msg ≠ "") ∧
  (∀ e, env.njTree = .error e → e.msg ≠ "") ∧
  (∀ e, env.save2 = some e → e.msg ≠ "")

/-- Every exception a `launch_pasteur_blast` environment can raise inside
the `try` block has non-empty text. -/
def PasteurExcMsgs (env : PasteurEnv) : Prop :=
  (∀ e, env.parse = .error e → e.msg ≠ "") ∧
  (∀ e, env.galaxyConn = some e → e.msg ≠ "") ∧
  (∀ e, env.createHistory = .error e → e.msg ≠ "") ∧
  (∀ e, env.save1 = some e → e.msg ≠ "") ∧
  (∀ e, env.tmpWrite = some e → e.msg ≠ "") ∧
  (∀ e, env.upload = .error e → e.msg ≠ "") ∧
  (∀ e, env.runTool = .error e → e.msg ≠ "") ∧
  (∀ e, env.save2 = some e → e.msg ≠ "")

/-- Every exception a `build_tree` environment can raise inside the `try`
block after the record fetch has non-empty text. -/
def BuildExcMsgs (env : BuildEnv) : Prop :=
  (∀ e, env.save1 = some e → e.msg ≠ "") ∧
  (∀ e, env.njTree = .error e → e.msg ≠ "") ∧
  (∀ e, env.save2 = some e → e.msg ≠ "")

/-- Modelled from the spec: `build_nj_tree` produces a non-empty tree
(§3 — tree is populated when FINISHED). -/
def NcbiTreeNonEmpty (env : NcbiEnv) : Prop :=
  ∀ t, env.njTree = .ok t → t ≠ ""

/-- Modelled from the spec: `build_nj_tree` produces a non-empty tree. -/
def BuildTreeNonEmpty (env : BuildEnv) : Prop :=
  ∀ t, env.njTree = .ok t → t ≠ ""

/-- Modelled from the spec: `build_nj_tree` produces a non-empty tree. -/
def PollTreeNonEmpty (env : PollRecEnv) : Prop :=
  ∀ t, env.njTree = .ok t → t ≠ ""

/-! ## Concrete sample records and environments (used by the closed
counterexample and witness statements) -/

def sampleRun : BlastRunRec :=
  { status := .PENDING, message := "", tree := "", query_id := "",
    query_seq := "", evalue := 1, coverage := 0, database := "",
    blastprog := "", email := none, history := "", history_fileid := "",
    server := .PASTEUR, deleted := false }

def runEmail : BlastRunRec :=
  { sampleRun with email := some "user@host.org", message := "prior" }

def runPrior : BlastRunRec := { sampleRun with message := "prior" }

def fr1 : FastaRec := { id := "q1 desc", seq := "ACGT" }

def fr2 : FastaRec := { id := "q2", seq := "GGGG" }

def envC2 : NcbiEnv :=
  { getRun := .error { msg := "DoesNotExist" }, parse := .ok [],
    save1 := none, qblast := .ok [], subjectSave := none,
    njTree := .ok "T", save2 := none, sendMail := none, save3 := none }

def envW2 : NcbiEnv :=
  { envC2 with getRun := .ok sampleRun, parse := .error { msg := "bad fasta" } }

def envC7n : NcbiEnv :=
  { envC2 with getRun := .ok sampleRun, parse := .ok [fr1, fr2] }

def envC7p : PasteurEnv :=
  { getRun := .ok sampleRun, parse := .ok [], galaxyConn := none,
    createHistory := .ok "h1", save1 := none, blast_type := some "bt",
    tmpWrite := none, parseFile := .ok [fr1], upload := .ok "f1",
    runTool := .ok "o1", save2 := none, save3 := none }

def envC6 : PasteurEnv :=
  { envC7p with getRun := .ok runEmail, parse := .ok [fr1], blast_type := none }

def envW6 : NcbiEnv :=
  { envC2 with getRun := .ok runEmail, parse := .ok [fr1] }

/-- The record `launch_ncbi_blast` produces on the success path of
`envW6` (query id is the first space-token of the header). -/
def bW6 : BlastRunRec :=
  { runEmail with
    query_id := "q1", query_seq := "ACGT", evalue := 1, coverage := 0,
    database := "nt", blastprog := "blastn", status := .FINISHED,
    tree := "T" }

def recEnvOk (st infos : String) : PollRecEnv :=
  { showDataset := .ok (st, infos), download := none, parseXml := .ok [],
    subjectSave := none, njTree := .ok "T", saveMid := none,
    saveEnd := none, sendMail := none }

def recEnvFail : PollRecEnv :=
  { recEnvOk "ok" "" with showDataset := .error { msg := "boom" } }

def env3a : PollEnv :=
  { lockFree := true, galaxyConn := none, db := [runPrior],
    recEnv := fun _ => recEnvOk "failed" "", handlerSave := none }

def env3b : PollEnv := { env3a with recEnv := fun _ => recEnvOk "ok" "newinfo" }

def env4 : PollEnv :=
  { env3a with galaxyConn := some { msg := "ConnectionError" }, db := [] }

def env5 : PollEnv :=
  { env3a with
    db := [runPrior, sampleRun],
    recEnv := fun i => if i = 0 then recEnvFail else recEnvOk "running" "info" }

/-! # Lemmas

## The cleanup chain of `newick_clean` -/

theorem collapseUnd_nil : collapseUnd [] = [] := rfl

theorem collapseUnd_single (c : Char) : collapseUnd [c] = [c] := rfl

theorem collapseUnd_cons₂ (c d : Char) (rs : List Char) :
    collapseUnd (c :: d :: rs) =
      if c = '_' ∧ d = '_' then collapseUnd (d :: rs)
      else c :: collapseUnd (d :: rs) := rfl

theorem stripTrailUnd_single (c : Char) :
    stripTrailUnd [c] = if c = '_' then [] else [c] := rfl

theorem stripTrailUnd_cons₂ (c d : Char) (rs : List Char) :
    stripTrailUnd (c :: d :: rs) = c :: stripTrailUnd (d :: rs) := rfl

theorem noDoubleUnd_cons₂ (c d : Char) (rs : List Char) :
    noDoubleUnd (c :: d :: rs) =
      (!(decide (c = '_') && decide (d = '_')) && noDoubleUnd (d :: rs)) := rfl

theorem endsWithUnd_single (c : Char) : endsWithUnd [c] = decide (c = '_') := rfl

theorem endsWithUnd_cons₂ (c d : Char) (rs : List Char) :
    endsWithUnd (c :: d :: rs) = endsWithUnd (d :: rs) := rfl

theorem mem_stripTrailUnd {c : Char} : ∀ {l : List Char},
    c ∈ stripTrailUnd l → c ∈ l := by
  intro l
  induction l with
  | nil => simp [stripTrailUnd]
  | cons a rest ih =>
    cases rest with
    | nil =>
      rw [stripTrailUnd_single]
      by_cases ha : a = '_' <;> simp [ha]
    | cons d rs =>
      rw [stripTrailUnd_cons₂]
      intro h
      rcases List.mem_cons.mp h with h | h
      · exact h ▸ List.mem_cons_self _ _
      · exact List.mem_cons_of_mem _ (ih h)

theorem mem_stripTrailUnd_of_ne {c : Char} (hc : c ≠ '_') : ∀ {l : List Char},
    c ∈ l → c ∈ stripTrailUnd l := by
  intro l
  induction l with
  | nil => simp
  | cons a rest ih =>
    cases rest with
    | nil =>
      intro h
      rcases List.mem_cons.mp h with h | h
      · subst h; simp [stripTrailUnd_single, hc]
      · simp at h
    | cons d rs =>
      rw [stripTrailUnd_cons₂]
      intro h
      rcases List.mem_cons.mp h with h | h
      · exact h ▸ List.mem_cons_self _ _
      · exact List.mem_cons_of_mem _ (ih h)

theorem mem_collapseUnd {c : Char} : ∀ {l : List Char},
    c ∈ collapseUnd l → c ∈ l := by
  intro l
  induction l with
  | nil => simp [collapseUnd_nil]
  | cons a rest ih =>
    cases rest with
    | nil => simp [collapseUnd_single]
    | cons d rs =>
      rw [collapseUnd_cons₂]
      intro h
      by_cases hud : a = '_' ∧ d = '_'
      · rw [if_pos hud] at h
        exact List.mem_cons_of_mem _ (ih h)
      · rw [if_neg hud] at h
        rcases List.mem_cons.mp h with h | h
        · exact h ▸ List.mem_cons_self _ _
        · exact List.mem_cons_of_mem _ (ih h)

theorem mem_collapseUnd_of_ne {c : Char} (hc : c ≠ '_') : ∀ {l : List Char},
    c ∈ l → c ∈ collapseUnd l := by
  intro l
  induction l with
  | nil => simp
  | cons a rest ih =>
    cases rest with
    | nil => simp [collapseUnd_single]
    | cons d rs =>
      rw [collapseUnd_cons₂]
      intro h
      by_cases hud : a = '_' ∧ d = '_'
      · rw [if_pos hud]
        rcases List.mem_cons.mp h with h | h
        · exact absurd (h.trans hud.1) hc
        · exact ih h
      · rw [if_neg hud]
        rcases List.mem_cons.mp h with h | h
        · exact h ▸ List.mem_cons_self _ _
        · exact List.mem_cons_of_mem _ (ih h)

theorem cleanChar_not_replaced (c : Char) : cleanChar c ∉ replacedChars := by
  unfold cleanChar
  by_cases h : c ∈ replacedChars
  · simp only [if_pos h]; decide
  · simp only [if_neg h]; exact h

/-- Every character of the cleanup-chain output avoids the replaced set. -/
theorem cleanOut_chars {l : List Char} {c : Char} (h : c ∈ cleanOut l) :
    c ∉ replacedChars := by
  have h1 := mem_collapseUnd (mem_stripTrailUnd h)
  rcases List.mem_map.mp h1 with ⟨x, _, hx⟩
  exact hx ▸ cleanChar_not_replaced x

theorem collapseUnd_cons : ∀ (rest : List Char) (c : Char),
    ∃ t, collapseUnd (c :: rest) = c :: t := by
  intro rest
  induction rest with
  | nil => intro c; exact ⟨[], rfl⟩
  | cons d rs ih =>
    intro c
    rw [collapseUnd_cons₂]
    by_cases hud : c = '_' ∧ d = '_'
    · rcases ih d with ⟨t, ht⟩
      refine ⟨t, ?_⟩
      rw [if_pos hud, ht, hud.1, hud.2]
    · exact ⟨collapseUnd (d :: rs), by rw [if_neg hud]⟩

theorem noDoubleUnd_collapseUnd : ∀ l : List Char,
    noDoubleUnd (collapseUnd l) = true := by
  intro l
  induction l with
  | nil => rfl
  | cons c rest ih =>
    cases rest with
    | nil => rfl
    | cons d rs =>
      rw [collapseUnd_cons₂]
      by_cases hud : c = '_' ∧ d = '_'
      · rw [if_pos hud]; exact ih
      · rw [if_neg hud]
        rcases collapseUnd_cons rs d with ⟨t, ht⟩
        rw [ht]
        rw [ht] at ih
        rw [noDoubleUnd_cons₂]
        simp only [Bool.and_eq_true, Bool.not_eq_true']
        refine ⟨?_, ih⟩
        by_cases hc : c = '_' <;> by_cases hd : d = '_' <;> simp_all

theorem collapseUnd_id : ∀ {l : List Char},
    noDoubleUnd l = true → collapseUnd l = l := by
  intro l
  induction l with
  | nil => intro _; rfl
  | cons c rest ih =>
    cases rest with
    | nil => intro _; rfl
    | cons d rs =>
      rw [noDoubleUnd_cons₂, collapseUnd_cons₂]
      simp only [Bool.and_eq_true, Bool.not_eq_true']
      intro h
      have hud : ¬(c = '_' ∧ d = '_') := by
        rintro ⟨h1, h2⟩; simp [h1, h2] at h
      rw [if_neg hud, ih h.2]

theorem stripTrailUnd_id : ∀ {l : List Char},
    endsWithUnd l = false → stripTrailUnd l = l := by
  intro l
  induction l with
  | nil => intro _; rfl
  | cons c rest ih =>
    cases rest with
    | nil =>
      rw [endsWithUnd_single, stripTrailUnd_single]
      simp only [decide_eq_false_iff_not]
      intro h
      rw [if_neg h]
    | cons d rs =>
      rw [endsWithUnd_cons₂, stripTrailUnd_cons₂]
      intro h
      rw [ih h]

theorem stripTrailUnd_cons : ∀ (rest : List Char) (c : Char),
    stripTrailUnd (c :: rest) = [] ∨
      ∃ t, stripTrailUnd (c :: rest) = c :: t := by
  intro rest c
  cases rest with
  | nil =>
    rw [stripTrailUnd_single]
    by_cases hc : c = '_'
    · left; rw [if_pos hc]
    · right; exact ⟨[], by rw [if_neg hc]⟩
  | cons d rs => right; exact ⟨stripTrailUnd (d :: rs), stripTrailUnd_cons₂ ..⟩

theorem endsWithUnd_stripTrailUnd : ∀ {l : List Char},
    noDoubleUnd l = true → endsWithUnd (stripTrailUnd l) = false := by
  intro l
  induction l with
  | nil => intro _; rfl
  | cons c rest ih =>
    cases rest with
    | nil =>
      intro _
      rw [stripTrailUnd_single]
      by_cases hc : c = '_'
      · rw [if_pos hc]; rfl
      · rw [if_neg hc, endsWithUnd_single]
        simpa using hc
    | cons d rs =>
      rw [noDoubleUnd_cons₂, stripTrailUnd_cons₂]
      simp only [Bool.and_eq_true, Bool.not_eq_true']
      intro h
      rcases stripTrailUnd_cons rs d with he | ⟨t, ht⟩
      · rw [he, endsWithUnd_single]
        simp only [decide_eq_false_iff_not]
        -- `stripTrailUnd (d :: rs) = []` forces `d :: rs = ['_']`,
        -- and then `noDoubleUnd` forces `c ≠ '_'`
        cases rs with
        | nil =>
          intro hc
          rw [hc] at h
          by_cases hd : d = '_'
          · rw [hd] at h; simp at h
          · rw [stripTrailUnd_single, if_neg hd] at he
            exact List.cons_ne_nil _ _ he
        | cons e es =>
          rw [stripTrailUnd_cons₂] at he
          exact absurd he (List.cons_ne_nil _ _)
      · rw [ht]
        have h2 := ih h.2
        rw [ht] at h2
        rwa [endsWithUnd_cons₂]

theorem noDoubleUnd_stripTrailUnd : ∀ {l : List Char},
    noDoubleUnd l = true → noDoubleUnd (stripTrailUnd l) = true := by
  intro l
  induction l with
  | nil => intro _; rfl
  | cons c rest ih =>
    cases rest with
    | nil =>
      intro _
      rw [stripTrailUnd_single]
      by_cases hc : c = '_'
      · rw [if_pos hc]; rfl
      · rw [if_neg hc]; rfl
    | cons d rs =>
      rw [noDoubleUnd_cons₂, stripTrailUnd_cons₂]
      simp only [Bool.and_eq_true, Bool.not_eq_true']
      intro h
      rcases stripTrailUnd_cons rs d with he | ⟨t, ht⟩
      · rw [he]; rfl
      · rw [ht]
        have h2 := ih h.2
        rw [ht] at h2
        rw [noDoubleUnd_cons₂]
        simp only [Bool.and_eq_true, Bool.not_eq_true']
        exact ⟨h.1, h2⟩

theorem noDoubleUnd_cleanOut (l : List Char) :
    noDoubleUnd (cleanOut l) = true :=
  noDoubleUnd_stripTrailUnd (noDoubleUnd_collapseUnd _)

theorem endsWithUnd_cleanOut (l : List Char) :
    endsWithUnd (cleanOut l) = false :=
  endsWithUnd_stripTrailUnd (noDoubleUnd_collapseUnd _)

/-! ## Matchers find nothing when their required literal character is absent -/

theorem subAllAux_id (mL : List Char → Option Nat) (P : Char → Prop)
    (hm : ∀ l2, (∀ c ∈ l2, P c) → mL l2 = none) :
    ∀ (n : Nat) (l : List Char), (∀ c ∈ l, P c) → subAllAux mL n l = l := by
  intro n
  induction n with
  | zero => intro l _; rfl
  | succ n ih =>
    intro l hl
    cases l with
    | nil => rfl
    | cons c cs =>
      have h0 : mL (c :: cs) = none := hm _ hl
      simp only [subAllAux, h0]
      rw [ih cs (fun x hx => hl x (List.mem_cons_of_mem _ hx))]

theorem matchPreds_head {p : Char → Bool} {ps : List (Char → Bool)}
    {l r : List Char} (h : matchPreds (p :: ps) l = some r) :
    ∃ c ∈ l, p c = true := by
  cases l with
  | nil => simp [matchPreds] at h
  | cons c cs =>
    by_cases hp : p c = true
    · exact ⟨c, List.mem_cons_self _ _, hp⟩
    · simp [matchPreds, hp] at h

theorem blOrdLitDigits_pipe {l : List Char} {n : Nat}
    (h : blOrdLitDigits l = some n) : '|' ∈ l := by
  unfold blOrdLitDigits at h
  cases hm : matchPreds blOrdLit l with
  | none => rw [hm] at h; simp at h
  | some rest =>
    unfold blOrdLit at hm
    rcases matchPreds_head hm with ⟨c, hc, hceq⟩
    have : c = '|' := of_decide_eq_true hceq
    exact this ▸ hc

theorem blOrdTryK_pipe {l1 : List Char} {r : Nat × Nat} :
    ∀ {k : Nat}, blOrdTryK l1 k = some r → '|' ∈ l1 := by
  intro k
  induction k with
  | zero =>
    intro h
    unfold blOrdTryK at h
    cases hd : blOrdLitDigits l1 with
    | none => rw [hd] at h; simp at h
    | some len2 => exact blOrdLitDigits_pipe hd
  | succ k ih =>
    intro h
    unfold blOrdTryK at h
    cases hd : blOrdLitDigits (l1.drop (k + 1)) with
    | none => rw [hd] at h; exact ih h
    | some len2 => exact List.drop_subset _ _ (blOrdLitDigits_pipe hd)

theorem blOrdMatchLen_pipe {l : List Char} {n : Nat}
    (h : blOrdMatchLen l = some n) : '|' ∈ l := by
  simp only [blOrdMatchLen] at h
  cases ht : blOrdTryK (l.drop (l.takeWhile isPySpace).length)
      ((l.drop (l.takeWhile isPySpace).length).takeWhile
        (fun c => !isPySpace c)).length with
  | none => rw [ht] at h; simp at h
  | some p => exact List.drop_subset _ _ (blOrdTryK_pipe ht)

theorem blOrdSub_id {l : List Char} (h : '|' ∉ l) : blOrdSub l = l := by
  refine subAllAux_id blOrdMatchLen (fun c => c ≠ '|') ?_ _ _
    (fun c hc hceq => h (hceq ▸ hc))
  intro l2 hl2
  cases hm : blOrdMatchLen l2 with
  | none => rfl
  | some n => exact absurd rfl (hl2 _ (blOrdMatchLen_pipe hm))

theorem litMatch_mem : ∀ {pat l r : List Char},
    litMatch pat l = some r → ∀ p ∈ pat, p ∈ l := by
  intro pat
  induction pat with
  | nil => intro l r _ p hp; simp at hp
  | cons q qs ih =>
    intro l r h p hp
    cases l with
    | nil => simp [litMatch] at h
    | cons c cs =>
      by_cases hc : c = q
      · rw [litMatch, if_pos hc] at h
        rcases List.mem_cons.mp hp with hp | hp
        · rw [hp, ← hc]; exact List.mem_cons_self _ _
        · exact List.mem_cons_of_mem _ (ih h p hp)
      · rw [litMatch, if_neg hc] at h
        exact absurd h (by simp)

theorem predictedAt_colon {l : List Char} {r : List Char × List Char}
    (h : predictedAt l = some r) : ':' ∈ l := by
  unfold predictedAt at h
  cases hm : litMatch predictedLit l with
  | none => rw [hm] at h; simp at h
  | some rest => exact litMatch_mem hm ':' (by unfold predictedLit; simp)

theorem predictedSearch_none : ∀ {l : List Char},
    ':' ∉ l → predictedSearch l = none := by
  intro l
  induction l with
  | nil => intro _; rfl
  | cons c cs ih =>
    intro h
    cases hp : predictedAt (c :: cs) with
    | some r => exact absurd (predictedAt_colon hp) h
    | none =>
      simp only [predictedSearch, hp]
      exact ih (fun hm => h (List.mem_cons_of_mem _ hm))

theorem bracketSearch_none : ∀ {l : List Char},
    '[' ∉ l → bracketSearch l = none := by
  intro l
  induction l with
  | nil => intro _; rfl
  | cons c cs ih =>
    intro h
    have hc : ¬(c = '[') := fun hc => h (hc ▸ List.mem_cons_self _ _)
    simp only [bracketSearch, if_neg hc]
    exact ih (fun hm => h (List.mem_cons_of_mem _ hm))

theorem headSpeciesSearch_none {l : List Char} (h : ' ' ∉ l) :
    headSpeciesSearch l = none := by
  unfold headSpeciesSearch
  by_cases ht : l.takeWhile (fun c => !isPySpace c) = []
  · simp [ht]
  · simp only [if_neg ht]
    split
    · next after heq =>
      exfalso
      apply h
      apply List.drop_subset (l.takeWhile (fun c => !isPySpace c)).length l
      rw [heq]
      exact List.mem_cons_self _ _
    · rfl

theorem spGeneAt_pipe {l r : List Char} (h : spGeneAt l = some r) :
    '|' ∈ l := by
  unfold spGeneAt at h
  split at h
  · simp
  · simp at h

theorem spGeneSearch_none : ∀ {l : List Char},
    '|' ∉ l → spGeneSearch l = none := by
  intro l
  induction l with
  | nil => intro _; rfl
  | cons c cs ih =>
    intro h
    cases hp : spGeneAt (c :: cs) with
    | some r => exact absurd (spGeneAt_pipe hp) h
    | none =>
      simp only [spGeneSearch, hp]
      exact ih (fun hm => h (List.mem_cons_of_mem _ hm))

theorem parenGene_none : ∀ {l : List Char},
    '(' ∉ l → parenGene l = none := by
  intro l
  induction l with
  | nil => intro _; rfl
  | cons c cs ih =>
    intro h
    have hc : ¬(c = '(') := fun hc => h (hc ▸ List.mem_cons_self _ _)
    simp only [parenGene, if_neg hc]
    exact ih (fun hm => h (List.mem_cons_of_mem _ hm))

theorem firstSpaceTok_id : ∀ {l : List Char}, ' ' ∉ l → firstSpaceTok l = l := by
  intro l
  induction l with
  | nil => intro _; rfl
  | cons c cs ih =>
    intro h
    have hc : ¬(c = ' ') := fun hc => h (hc ▸ List.mem_cons_self _ _)
    unfold firstSpaceTok at ih ⊢
    rw [List.takeWhile_cons, if_pos (by simp [hc]),
      ih (fun hm => h (List.mem_cons_of_mem _ hm))]

theorem map_cleanChar_id : ∀ {l : List Char},
    (∀ c ∈ l, c ∉ replacedChars) → l.map cleanChar = l := by
  intro l
  induction l with
  | nil => intro _; rfl
  | cons c cs ih =>
    intro h
    simp only [List.map_cons]
    rw [show cleanChar c = c from
      if_neg (h c (List.mem_cons_self _ _))]
    rw [ih (fun x hx => h x (List.mem_cons_of_mem _ hx))]

/-! ## `newick_clean` is the identity on its own pipe-free outputs -/

theorem rawLabel_id {l : List Char}
    (hpipe : '|' ∉ l) (hbk : '[' ∉ l) (hcol : ':' ∉ l)
    (hsp : ' ' ∉ l) (hpar : '(' ∉ l) : rawLabel l = l := by
  unfold rawLabel newickStage1 speciesSearch
  rw [blOrdSub_id hpipe, bracketSearch_none hbk, predictedSearch_none hcol,
    headSpeciesSearch_none hsp]
  dsimp only
  unfold geneSearch
  rw [spGeneSearch_none hpipe, parenGene_none hpar, firstSpaceTok_id hsp]
  simp [speciesParenSub, subAll, subAllAux]

theorem cleanOut_id {l : List Char}
    (hbad : ∀ c ∈ l, c ∉ replacedChars)
    (hnd : noDoubleUnd l = true) (hew : endsWithUnd l = false) :
    cleanOut l = l := by
  unfold cleanOut
  rw [map_cleanChar_id hbad, collapseUnd_id hnd, stripTrailUnd_id hew]

theorem newick_clean_fixpoint (s : String)
    (hp : '|' ∉ (newick_clean s).data) :
    newick_clean (newick_clean s) = newick_clean s := by
  have hbad : ∀ c ∈ (newick_clean s).data, c ∉ replacedChars :=
    fun c hc => cleanOut_chars hc
  have hbk : '[' ∉ (newick_clean s).data :=
    fun hm => hbad _ hm (by decide)
  have hcol : ':' ∉ (newick_clean s).data :=
    fun hm => hbad _ hm (by decide)
  have hsp : ' ' ∉ (newick_clean s).data :=
    fun hm => hbad _ hm (by decide)
  have hpar : '(' ∉ (newick_clean s).data :=
    fun hm => hbad _ hm (by decide)
  show (⟨cleanOut (rawLabel (newick_clean s).data)⟩ : String) = newick_clean s
  rw [rawLabel_id hp hbk hcol hsp hpar,
    cleanOut_id hbad (noDoubleUnd_cleanOut _) (endsWithUnd_cleanOut _)]

/-! ## When is the output of the cleanup chain empty? -/

theorem collapseUnd_allUnd : ∀ {l : List Char}, (∀ c ∈ l, c = '_') →
    collapseUnd l = [] ∨ collapseUnd l = ['_'] := by
  intro l
  induction l with
  | nil => intro _; left; rfl
  | cons c rest ih =>
    intro h
    cases rest with
    | nil =>
      right
      rw [collapseUnd_single, h c (List.mem_cons_self _ _)]
    | cons d rs =>
      have hc : c = '_' := h c (List.mem_cons_self _ _)
      have hd : d = '_' := h d (List.mem_cons_of_mem _ (List.mem_cons_self _ _))
      rw [collapseUnd_cons₂, if_pos ⟨hc, hd⟩]
      exact ih (fun x hx => h x (List.mem_cons_of_mem _ hx))

theorem cleanOut_eq_nil_iff (l : List Char) :
    cleanOut l = [] ↔ ∀ c ∈ l, cleanChar c = '_' := by
  constructor
  · intro h c hc
    by_contra hne
    have h1 : cleanChar c ∈ l.map cleanChar := List.mem_map_of_mem _ hc
    have h3 := mem_stripTrailUnd_of_ne hne (mem_collapseUnd_of_ne hne h1)
    rw [show stripTrailUnd (collapseUnd (l.map cleanChar)) = cleanOut l from rfl,
      h] at h3
    simp at h3
  · intro h
    have hall : ∀ c ∈ l.map cleanChar, c = '_' := by
      intro c hc
      rcases List.mem_map.mp hc with ⟨x, hx, rfl⟩
      exact h x hx
    unfold cleanOut
    rcases collapseUnd_allUnd hall with h1 | h1 <;> rw [h1]
    · rfl
    · rw [stripTrailUnd_single, if_pos rfl]

/-! # Claim C8 -/

/-- C8 counterexample: the claim says the output of `newick_clean` contains
no whitespace character, but only the space character U+0020 is replaced:
on input `"a\tb"` the output still contains a tab, which is whitespace. -/
theorem C8_counterexample :
    '\t' ∈ (newick_clean "a\tb").data ∧ isPySpace '\t' = true := by
  constructor <;> decide

/-- C8 (amended): for every input string, the output of `newick_clean`
contains none of the characters of `replacedChars` — that is, none of
`[ ] ( ) , ; :` and no space character U+0020 (exactly the eight
characters the cleanup chain replaces by `_`); other whitespace
characters such as tab may remain. -/
theorem C8_no_replaced_chars (s : String) (c : Char)
    (h : c ∈ (newick_clean s).data) : c ∉ replacedChars :=
  cleanOut_chars h

/-- C8 witness: the amended theorem applied at the concrete input `"a b"`
and the space character. -/
theorem C8_witness : ' ' ∉ (newick_clean "a b").data :=
  fun hmem => C8_no_replaced_chars "a b" ' ' hmem (by decide)

/-! # Claim C9 -/

/-- C9 counterexample: the claim says `newick_clean` maps non-empty input
to non-empty output, but the single-space input (non-empty) yields the
empty string. -/
theorem C9_counterexample :
    newick_clean " " = "" ∧ (" " : String) ≠ "" := by
  constructor <;> decide

/-- C9 (amended): `newick_clean` returns the empty string exactly when
every character of the composed raw label (first space-delimited token of
the processed name, plus the gene and species captures) is mapped to `_`
by the character cleanup (i.e. is one of the eight replaced characters or
already an underscore); in particular a non-empty input whose composed
label is empty or all-replaceable (such as a single space or a single
underscore) yields the empty string. -/
theorem C9_empty_iff (s : String) :
    newick_clean s = "" ↔ ∀ c ∈ rawLabel s.data, cleanChar c = '_' := by
  rw [show newick_clean s = (⟨cleanOut (rawLabel s.data)⟩ : String) from rfl,
    show ("" : String) = ⟨[]⟩ from rfl]
  rw [String.ext_iff]
  exact cleanOut_eq_nil_iff _

/-- C9 witness: the amended theorem applied at the concrete input `"_"`. -/
theorem C9_witness : newick_clean "_" = "" :=
  (C9_empty_iff "_").mpr (by decide)

/-! # Claim C10 -/

/-- C10 counterexample: the claim says `newick_clean` is the identity on
its own outputs, but on the output for `"sp|P12|AB x y"` (which still
contains the `sp|…|word` gene pattern) a second application appends the
gene capture again. -/
theorem C10_counterexample :
    newick_clean (newick_clean "sp|P12|AB x y") ≠
      newick_clean "sp|P12|AB x y" := by
  decide

/-- C10 (amended): `newick_clean` is deterministic (equal inputs give equal
outputs), and it is the identity on every one of its own outputs that
contains no `|` character; an output still containing `|` can match the
`sp|…|word` gene pattern again, so idempotence can fail there. -/
theorem C10_deterministic_idempotent :
    (∀ s t : String, s = t → newick_clean s = newick_clean t) ∧
    (∀ s : String, '|' ∉ (newick_clean s).data →
      newick_clean (newick_clean s) = newick_clean s) :=
  ⟨fun _ _ h => h ▸ rfl, fun s hp => newick_clean_fixpoint s hp⟩

/-- C10 witness: the amended theorem applied at the concrete input
`"gi AB x y"` whose output is pipe-free, and at a pair of equal inputs. -/
theorem C10_witness :
    newick_clean (newick_clean "gi AB x y") = newick_clean "gi AB x y" :=
  C10_deterministic_idempotent.2 "gi AB x y" (by decide)

/-! ## Helper lemmas about the task models -/

theorem countMsg_ne_empty (n : Nat) : countMsg n ≠ "" := by
  intro h
  have h2 := congrArg String.data h
  simp [countMsg] at h2

theorem wrongProg_ne_empty (p : String) : "Wrong blast program " ++ p ≠ "" := by
  intro h
  have h2 := congrArg String.data h
  simp at h2

theorem ncbiMailStep_ok {env : NcbiEnv} {b : BlastRunRec}
    {subj : List (String × HSP)} {b' : BlastRunRec}
    {subj' : List (String × HSP)} {m : Bool}
    (h : ncbiMailStep env b subj = .ok (b', subj', m)) :
    b' = b ∧ m = validEmail b.email := by
  unfold ncbiMailStep at h
  by_cases hv : validEmail b.email = true
  · rw [if_pos hv] at h
    cases hs : env.sendMail with
    | some e => rw [hs] at h; cases h; exact ⟨rfl, hv.symm⟩
    | none => rw [hs] at h; cases h; exact ⟨rfl, hv.symm⟩
  · rw [if_neg hv] at h
    cases h
    exact ⟨rfl, (Bool.not_eq_true _).mp hv |>.symm⟩

theorem ncbiMailStep_ne_error {env : NcbiEnv} {b : BlastRunRec}
    {subj : List (String × HSP)} {r : BlastRunRec × Exc} :
    ncbiMailStep env b subj ≠ .error r := by
  unfold ncbiMailStep
  by_cases hv : validEmail b.email = true
  · rw [if_pos hv]
    cases env.sendMail <;> simp
  · rw [if_neg hv]; simp

theorem ncbiTry_ok_cases {env : NcbiEnv} {prog db : String} {ev cv : ℚ}
    {b0 b : BlastRunRec} {subj : List (String × HSP)} {m : Bool}
    (h : ncbiTry env prog db ev cv b0 = .ok (b, subj, m)) :
    m = validEmail b.email ∧
    ((b.status = .FINISHED ∧ (∃ t, env.njTree = .ok t ∧ b.tree = t) ∧
        b.message = b0.message) ∨
      (b.status = .ERROR ∧ ∃ n, ¬ n = 1 ∧ b.message = countMsg n)) := by
  unfold ncbiTry at h
  cases hp : env.parse with
  | error e => rw [hp] at h; exact absurd h (by simp)
  | ok records =>
    rw [hp] at h
    match records with
    | [] =>
      rcases ncbiMailStep_ok h with ⟨hb, hm⟩
      subst hb
      exact ⟨hm, Or.inr ⟨rfl, 0, by simp, rfl⟩⟩
    | [r] =>
      cases h1 : env.save1 with
      | some e => rw [h1] at h; exact absurd h (by simp)
      | none =>
        rw [h1] at h
        cases hq : env.qblast with
        | error e => rw [hq] at h; exact absurd h (by simp)
        | ok brecs =>
          rw [hq] at h
          cases hss : env.subjectSave with
          | some e => rw [hss] at h; exact absurd h (by simp)
          | none =>
            rw [hss] at h
            cases hnj : env.njTree with
            | error e => rw [hnj] at h; exact absurd h (by simp)
            | ok t =>
              rw [hnj] at h
              cases h2 : env.save2 with
              | some e => rw [h2] at h; exact absurd h (by simp)
              | none =>
                rw [h2] at h
                rcases ncbiMailStep_ok h with ⟨hb, hm⟩
                subst hb
                exact ⟨hm, Or.inl ⟨rfl, ⟨t, rfl, rfl⟩, rfl⟩⟩
    | r1 :: r2 :: rs =>
      rcases ncbiMailStep_ok h with ⟨hb, hm⟩
      subst hb
      exact ⟨hm, Or.inr ⟨rfl, (r1 :: r2 :: rs).length, by simp, rfl⟩⟩

theorem ncbiTry_error_msgs {env : NcbiEnv} {prog db : String} {ev cv : ℚ}
    {b0 b1 : BlastRunRec} {e : Exc} (hex : NcbiExcMsgs env)
    (h : ncbiTry env prog db ev cv b0 = .error (b1, e)) : e.msg ≠ "" := by
  unfold ncbiTry at h
  cases hp : env.parse with
  | error e2 =>
    rw [hp] at h
    cases h
    exact hex.1 _ hp
  | ok records =>
    rw [hp] at h
    match records with
    | [] => exact absurd h ncbiMailStep_ne_error
    | [r] =>
      cases h1 : env.save1 with
      | some e2 => rw [h1] at h; cases h; exact hex.2.1 _ h1
      | none =>
        rw [h1] at h
        cases hq : env.qblast with
        | error e2 => rw [hq] at h; cases h; exact hex.2.2.1 _ hq
        | ok brecs =>
          rw [hq] at h
          cases hss : env.subjectSave with
          | some e2 => rw [hss] at h; cases h; exact hex.2.2.2.1 _ hss
          | none =>
            rw [hss] at h
            cases hnj : env.njTree with
            | error e2 => rw [hnj] at h; cases h; exact hex.2.2.2.2.1 _ hnj
            | ok t =>
              rw [hnj] at h
              cases h2 : env.save2 with
              | some e2 => rw [h2] at h; cases h; exact hex.2.2.2.2.2 _ h2
              | none => rw [h2] at h; exact absurd h ncbiMailStep_ne_error
    | r1 :: r2 :: rs => exact absurd h ncbiMailStep_ne_error

theorem pasteurTry_ok_cases {env : PasteurEnv} {prog db : String} {ev cv : ℚ}
    {b0 b : BlastRunRec} (h : pasteurTry env prog db ev cv b0 = .ok b) :
    (b.status = .PENDING ∧ b.message = b0.message) ∨
    (b.status = .ERROR ∧
      (b.message = "Bad input FASTA file format" ∨
       b.message = "Wrong blast program " ++ prog ∨
       ∃ n, ¬ n = 1 ∧ b.message = countMsg n)) := by
  unfold pasteurTry at h
  cases hp : env.parse with
  | error e => rw [hp] at h; exact absurd h (by simp)
  | ok records =>
    rw [hp] at h
    match records with
    | [] =>
      cases h
      exact Or.inr ⟨rfl, Or.inr (Or.inr ⟨0, by simp, rfl⟩)⟩
    | [r] =>
      cases hg : env.galaxyConn with
      | some e => rw [hg] at h; exact absurd h (by simp)
      | none =>
        rw [hg] at h
        cases hch : env.createHistory with
        | error e => rw [hch] at h; exact absurd h (by simp)
        | ok hid =>
          rw [hch] at h
          cases h1 : env.save1 with
          | some e => rw [h1] at h; exact absurd h (by simp)
          | none =>
            rw [h1] at h
            cases hbt : env.blast_type with
            | some bt =>
              rw [hbt] at h
              cases htw : env.tmpWrite with
              | some e => rw [htw] at h; exact absurd h (by simp)
              | none =>
                rw [htw] at h
                dsimp only at h
                by_cases hfa : is_fasta_one_seq env.parseFile = true
                · rw [if_pos hfa] at h
                  cases hu : env.upload with
                  | error e => rw [hu] at h; exact absurd h (by simp)
                  | ok fileId =>
                    rw [hu] at h
                    cases hrt : env.runTool with
                    | error e => rw [hrt] at h; exact absurd h (by simp)
                    | ok outId =>
                      rw [hrt] at h
                      cases h2 : env.save2 with
                      | some e => rw [h2] at h; exact absurd h (by simp)
                      | none =>
                        rw [h2] at h
                        cases h
                        exact Or.inl ⟨rfl, rfl⟩
                · rw [if_neg hfa] at h
                  cases h2 : env.save2 with
                  | some e => rw [h2] at h; exact absurd h (by simp)
                  | none =>
                    rw [h2] at h
                    cases h
                    exact Or.inr ⟨rfl, Or.inl rfl⟩
            | none =>
              rw [hbt] at h
              cases h2 : env.save2 with
              | some e => rw [h2] at h; exact absurd h (by simp)
              | none =>
                rw [h2] at h
                cases h
                exact Or.inr ⟨rfl, Or.inr (Or.inl rfl)⟩
    | r1 :: r2 :: rs =>
      cases h
      exact Or.inr ⟨rfl, Or.inr (Or.inr ⟨(r1 :: r2 :: rs).length, by simp, rfl⟩)⟩

theorem pasteurTry_error_msgs {env : PasteurEnv} {prog db : String}
    {ev cv : ℚ} {b0 b1 : BlastRunRec} {e : Exc} (hex : PasteurExcMsgs env)
    (h : pasteurTry env prog db ev cv b0 = .error (b1, e)) : e.msg ≠ "" := by
  unfold pasteurTry at h
  cases hp : env.parse with
  | error e2 => rw [hp] at h; cases h; exact hex.1 _ hp
  | ok records =>
    rw [hp] at h
    match records with
    | [] => exact absurd h (by simp)
    | [r] =>
      cases hg : env.galaxyConn with
      | some e2 => rw [hg] at h; cases h; exact hex.2.1 _ hg
      | none =>
        rw [hg] at h
        cases hch : env.createHistory with
        | error e2 => rw [hch] at h; cases h; exact hex.2.2.1 _ hch
        | ok hid =>
          rw [hch] at h
          cases h1 : env.save1 with
          | some e2 => rw [h1] at h; cases h; exact hex.2.2.2.1 _ h1
          | none =>
            rw [h1] at h
            cases hbt : env.blast_type with
            | some bt =>
              rw [hbt] at h
              cases htw : env.tmpWrite with
              | some e2 => rw [htw] at h; cases h; exact hex.2.2.2.2.1 _ htw
              | none =>
                rw [htw] at h
                dsimp only at h
                by_cases hfa : is_fasta_one_seq env.parseFile = true
                · rw [if_pos hfa] at h
                  cases hu : env.upload with
                  | error e2 => rw [hu] at h; cases h; exact hex.2.2.2.2.2.1 _ hu
                  | ok fileId =>
                    rw [hu] at h
                    cases hrt : env.runTool with
                    | error e2 =>
                      rw [hrt] at h; cases h; exact hex.2.2.2.2.2.2.1 _ hrt
                    | ok outId =>
                      rw [hrt] at h
                      cases h2 : env.save2 with
                      | some e2 =>
                        rw [h2] at h; cases h; exact hex.2.2.2.2.2.2.2 _ h2
                      | none => rw [h2] at h; exact absurd h (by simp)
                · rw [if_neg hfa] at h
                  cases h2 : env.save2 with
                  | some e2 => rw [h2] at h; cases h; exact hex.2.2.2.2.2.2.2 _ h2
                  | none => rw [h2] at h; exact absurd h (by simp)
            | none =>
              rw [hbt] at h
              cases h2 : env.save2 with
              | some e2 => rw [h2] at h; cases h; exact hex.2.2.2.2.2.2.2 _ h2
              | none => rw [h2] at h; exact absurd h (by simp)
    | r1 :: r2 :: rs => exact absurd h (by simp)

theorem buildTry_ok {env : BuildEnv} {b2 : BlastRunRec}
    (h : buildTry env = .ok b2) :
    b2.status = .FINISHED ∧
    ∃ b0 t, env.getRun = .ok b0 ∧ env.njTree = .ok t ∧ b2.tree = t ∧
      b2.message = b0.message := by
  unfold buildTry at h
  cases hg : env.getRun with
  | error e => rw [hg] at h; exact absurd h (by simp)
  | ok b0 =>
    rw [hg] at h
    cases h1 : env.save1 with
    | some e => rw [h1] at h; exact absurd h (by simp)
    | none =>
      rw [h1] at h
      cases hnj : env.njTree with
      | error e => rw [hnj] at h; exact absurd h (by simp)
      | ok t =>
        rw [hnj] at h
        cases h2 : env.save2 with
        | some e => rw [h2] at h; exact absurd h (by simp)
        | none =>
          rw [h2] at h
          cases h
          exact ⟨rfl, b0, t, rfl, rfl, rfl, rfl⟩

theorem buildTry_error_msgs {env : BuildEnv} {b1 : BlastRunRec} {e : Exc}
    (hex : BuildExcMsgs env) (h : buildTry env = .error (some b1, e)) :
    e.msg ≠ "" := by
  unfold buildTry at h
  cases hg : env.getRun with
  | error e2 => rw [hg] at h; simp at h
  | ok b0 =>
    rw [hg] at h
    cases h1 : env.save1 with
    | some e2 => rw [h1] at h; cases h; exact hex.1 _ h1
    | none =>
      rw [h1] at h
      cases hnj : env.njTree with
      | error e2 => rw [hnj] at h; cases h; exact hex.2.1 _ hnj
      | ok t =>
        rw [hnj] at h
        cases h2 : env.save2 with
        | some e2 => rw [h2] at h; cases h; exact hex.2.2 _ h2
        | none => rw [h2] at h; exact absurd h (by simp)

theorem pollBranch_ok {env : PollRecEnv} {b : BlastRunRec} {st infos : String}
    {b2 : BlastRunRec} {mid : Bool}
    (h : pollBranch env b st infos = .ok (b2, mid)) :
    b2.message = infos ∧
    (b2.status = .FINISHED → st = "ok" ∧ ∃ t, env.njTree = .ok t ∧ b2.tree = t) := by
  unfold pollBranch at h
  by_cases hok : st = "ok"
  · rw [if_pos hok] at h
    cases hd : env.download with
    | some e => rw [hd] at h; exact absurd h (by simp)
    | none =>
      rw [hd] at h
      cases hx : env.parseXml with
      | error e => rw [hx] at h; exact absurd h (by simp)
      | ok brecs =>
        rw [hx] at h
        cases hss : env.subjectSave with
        | some e => rw [hss] at h; exact absurd h (by simp)
        | none =>
          rw [hss] at h
          cases hnj : env.njTree with
          | error e => rw [hnj] at h; exact absurd h (by simp)
          | ok t =>
            rw [hnj] at h
            cases hsm : env.saveMid with
            | some e => rw [hsm] at h; exact absurd h (by simp)
            | none =>
              rw [hsm] at h
              cases h
              exact ⟨rfl, fun _ => ⟨hok, t, rfl, rfl⟩⟩
  · rw [if_neg hok] at h
    by_cases hqn : st = "queued" ∨ st = "new"
    · rw [if_pos hqn] at h
      cases h
      refine ⟨rfl, fun hf => ?_⟩
      simp at hf
    · rw [if_neg hqn] at h
      by_cases hr : st = "running"
      · rw [if_pos hr] at h
        cases h
        refine ⟨rfl, fun hf => ?_⟩
        simp at hf
      · rw [if_neg hr] at h
        cases h
        refine ⟨rfl, fun hf => ?_⟩
        simp at hf

theorem pollSaveMail_ok {env : PollRecEnv} {b b2 : BlastRunRec} {mid : Bool}
    {b2' : BlastRunRec} {m : Bool}
    (h : pollSaveMail env b b2 mid = .ok (b2', m)) :
    b2' = b2 ∧
    m = (validEmail b2.email &&
      (b2.status == JobStatus.ERROR || b2.status == JobStatus.FINISHED)) := by
  unfold pollSaveMail at h
  cases hse : env.saveEnd with
  | some e => rw [hse] at h; exact absurd h (by simp)
  | none =>
    rw [hse] at h
    by_cases hc : (validEmail b2.email &&
        (b2.status == JobStatus.ERROR || b2.status == JobStatus.FINISHED)) = true
    · rw [if_pos hc] at h
      cases hs : env.sendMail with
      | some e => rw [hs] at h; cases h; exact ⟨rfl, hc.symm⟩
      | none => rw [hs] at h; cases h; exact ⟨rfl, hc.symm⟩
    · rw [if_neg hc] at h
      cases h
      exact ⟨rfl, ((Bool.not_eq_true _).mp hc).symm⟩

theorem pollRecord_ok_facts {env : PollRecEnv} {b b2 : BlastRunRec} {m : Bool}
    (h : pollRecord env b = .ok (b2, m)) :
    m = (validEmail b2.email &&
      (b2.status == JobStatus.ERROR || b2.status == JobStatus.FINISHED)) ∧
    (∃ st infos, env.showDataset = .ok (st, infos) ∧ b2.message = infos) ∧
    (b2.status = .FINISHED → ∃ t, env.njTree = .ok t ∧ b2.tree = t) := by
  unfold pollRecord at h
  cases hsd : env.showDataset with
  | error e => rw [hsd] at h; exact absurd h (by simp)
  | ok p =>
    rcases p with ⟨st, infos⟩
    rw [hsd] at h
    dsimp only at h
    cases hbr : pollBranch env b st infos with
    | error r => rw [hbr] at h; exact absurd h (by simp)
    | ok q =>
      rcases q with ⟨b2', mid⟩
      rw [hbr] at h
      rcases pollSaveMail_ok h with ⟨hb, hm⟩
      subst hb
      rcases pollBranch_ok hbr with ⟨hmsg, hfin⟩
      exact ⟨hm, ⟨st, infos, rfl, hmsg⟩, fun hf => (hfin hf).2⟩

theorem pollLoop_drop (recEnv : Nat → PollRecEnv) :
    ∀ (l : List BlastRunRec) (i : Nat)
      {fs : List BlastRunRec} {ms : List Bool}
      {lastP bMem : BlastRunRec} {e : Exc} {rest : List BlastRunRec},
      pollLoop recEnv i l = (fs, ms, some (lastP, bMem, e, rest)) →
      l.drop (fs.length + 1) = rest := by
  intro l
  induction l with
  | nil => intro i fs ms lastP bMem e rest h; simp [pollLoop] at h
  | cons b bs ih =>
    intro i fs ms lastP bMem e rest h
    unfold pollLoop at h
    cases hrec : pollRecord (recEnv i) b with
    | error r =>
      rcases r with ⟨lp, bm, e2⟩
      rw [hrec] at h
      cases h
      simp
    | ok q =>
      rcases q with ⟨b2, m⟩
      rw [hrec] at h
      rcases hpl : pollLoop recEnv (i + 1) bs with ⟨fs', ms', exc⟩
      rw [hpl] at h
      cases h
      have := ih (i + 1) hpl
      simpa using this

/-- The poll loop records one `send_mail` decision per record processed to
completion and none for the failing record or the records after it. -/
theorem pollLoop_mails_length (recEnv : Nat → PollRecEnv) :
    ∀ (l : List BlastRunRec) (i : Nat)
      {fs : List BlastRunRec} {ms : List Bool}
      {exc : Option (BlastRunRec × BlastRunRec × Exc × List BlastRunRec)},
      pollLoop recEnv i l = (fs, ms, exc) → ms.length = fs.length := by
  intro l
  induction l with
  | nil =>
    intro i fs ms exc h
    unfold pollLoop at h
    cases h
    rfl
  | cons b bs ih =>
    intro i fs ms exc h
    unfold pollLoop at h
    cases hrec : pollRecord (recEnv i) b with
    | error r =>
      rcases r with ⟨lp, bm, e2⟩
      rw [hrec] at h
      cases h
      rfl
    | ok q =>
      rcases q with ⟨b2, m⟩
      rw [hrec] at h
      rcases hpl : pollLoop recEnv (i + 1) bs with ⟨fs', ms', exc'⟩
      rw [hpl] at h
      cases h
      have := ih (i + 1) hpl
      simpa using this

theorem ncbiMailStep_out (env : NcbiEnv) (b : BlastRunRec)
    (subj : List (String × HSP)) :
    ncbiMailStep env b subj = .ok (b, subj, validEmail b.email) := by
  unfold ncbiMailStep
  by_cases hv : validEmail b.email = true
  · rw [if_pos hv, hv]
    cases env.sendMail <;> rfl
  · rw [if_neg hv, (Bool.not_eq_true _).mp hv]

theorem launch_ncbi_of_ok {env : NcbiEnv} {prog db : String} {ev cv : ℚ}
    {b0 b : BlastRunRec} {subj : List (String × HSP)} {m : Bool}
    (hget : env.getRun = .ok b0) (hs3 : env.save3 = none)
    (htry : ncbiTry env prog db ev cv b0 = .ok (b, subj, m)) :
    launch_ncbi_blast env prog db ev cv =
      { b := some b, subjects := subj, mailed := m, escaped := none } := by
  unfold launch_ncbi_blast
  rw [hget]
  dsimp only
  rw [htry]
  dsimp only
  rw [hs3]

theorem launch_ncbi_mailed_ok {env : NcbiEnv} {prog db : String} {ev cv : ℚ}
    {b0 b : BlastRunRec} {subj : List (String × HSP)} {m : Bool}
    (hget : env.getRun = .ok b0)
    (htry : ncbiTry env prog db ev cv b0 = .ok (b, subj, m)) :
    (launch_ncbi_blast env prog db ev cv).mailed = m := by
  unfold launch_ncbi_blast
  rw [hget]
  dsimp only
  rw [htry]
  dsimp only
  cases env.save3 <;> rfl

theorem launch_ncbi_mailed_error {env : NcbiEnv} {prog db : String}
    {ev cv : ℚ} {b0 b1 : BlastRunRec} {e : Exc}
    (hget : env.getRun = .ok b0)
    (htry : ncbiTry env prog db ev cv b0 = .error (b1, e)) :
    (launch_ncbi_blast env prog db ev cv).mailed = false := by
  unfold launch_ncbi_blast
  rw [hget]
  dsimp only
  rw [htry]
  dsimp only
  cases env.save3 <;> rfl

theorem launch_ncbi_b_cases {env : NcbiEnv} {prog db : String} {ev cv : ℚ}
    {b0 b : BlastRunRec} (hget : env.getRun = .ok b0)
    (hb : (launch_ncbi_blast env prog db ev cv).b = some b) :
    (∃ subj m, ncbiTry env prog db ev cv b0 = .ok (b, subj, m)) ∨
    (∃ b1 e, ncbiTry env prog db ev cv b0 = .error (b1, e) ∧
      b = { b1 with status := JobStatus.ERROR, message := e.msg }) := by
  unfold launch_ncbi_blast at hb
  rw [hget] at hb
  dsimp only at hb
  cases htry : ncbiTry env prog db ev cv b0 with
  | ok trip =>
    rcases trip with ⟨b', subj, m⟩
    rw [htry] at hb
    dsimp only at hb
    cases hs3 : env.save3 with
    | some e =>
      rw [hs3] at hb
      dsimp only at hb
      cases hb
      exact Or.inl ⟨subj, m, rfl⟩
    | none =>
      rw [hs3] at hb
      dsimp only at hb
      cases hb
      exact Or.inl ⟨subj, m, rfl⟩
  | error pr =>
    rcases pr with ⟨b1, e⟩
    rw [htry] at hb
    dsimp only at hb
    cases hs3 : env.save3 with
    | some e2 =>
      rw [hs3] at hb
      dsimp only at hb
      cases hb
      exact Or.inr ⟨b1, e, rfl, rfl⟩
    | none =>
      rw [hs3] at hb
      dsimp only at hb
      cases hb
      exact Or.inr ⟨b1, e, rfl, rfl⟩

theorem launch_pasteur_of_ok {env : PasteurEnv} {prog db : String}
    {ev cv : ℚ} {b0 b : BlastRunRec}
    (hget : env.getRun = .ok b0) (hs3 : env.save3 = none)
    (htry : pasteurTry env prog db ev cv b0 = .ok b) :
    launch_pasteur_blast env prog db ev cv =
      { b := some b, mailed := false, escaped := none } := by
  unfold launch_pasteur_blast
  rw [hget]
  dsimp only
  rw [htry]
  dsimp only
  rw [hs3]

theorem launch_pasteur_b_cases {env : PasteurEnv} {prog db : String}
    {ev cv : ℚ} {b0 b : BlastRunRec} (hget : env.getRun = .ok b0)
    (hb : (launch_pasteur_blast env prog db ev cv).b = some b) :
    pasteurTry env prog db ev cv b0 = .ok b ∨
    (∃ b1 e, pasteurTry env prog db ev cv b0 = .error (b1, e) ∧
      b = { b1 with status := JobStatus.ERROR, message := e.msg }) := by
  unfold launch_pasteur_blast at hb
  rw [hget] at hb
  dsimp only at hb
  cases htry : pasteurTry env prog db ev cv b0 with
  | ok b' =>
    rw [htry] at hb
    dsimp only at hb
    cases hs3 : env.save3 with
    | some e => rw [hs3] at hb; dsimp only at hb; cases hb; exact Or.inl rfl
    | none => rw [hs3] at hb; dsimp only at hb; cases hb; exact Or.inl rfl
  | error pr =>
    rcases pr with ⟨b1, e⟩
    rw [htry] at hb
    dsimp only at hb
    cases hs3 : env.save3 with
    | some e2 =>
      rw [hs3] at hb; dsimp only at hb; cases hb
      exact Or.inr ⟨b1, e, rfl, rfl⟩
    | none =>
      rw [hs3] at hb; dsimp only at hb; cases hb
      exact Or.inr ⟨b1, e, rfl, rfl⟩

theorem launch_pasteur_mailed (env : PasteurEnv) (prog db : String)
    (ev cv : ℚ) : (launch_pasteur_blast env prog db ev cv).mailed = false := by
  unfold launch_pasteur_blast
  cases hget : env.getRun with
  | error e => rfl
  | ok b0 =>
    dsimp only
    cases htry : pasteurTry env prog db ev cv b0 with
    | ok b => dsimp only; cases env.save3 <;> rfl
    | error pr => rcases pr with ⟨b1, e⟩; dsimp only; cases env.save3 <;> rfl

theorem build_tree_b_cases {env : BuildEnv} {b : BlastRunRec}
    (hb : (build_tree env).b = some b) :
    buildTry env = .ok b ∨
    (∃ b1 e, buildTry env = .error (some b1, e) ∧
      b = { b1 with status := JobStatus.ERROR, message := e.msg }) := by
  unfold build_tree at hb
  cases htry : buildTry env with
  | ok b2 =>
    rw [htry] at hb
    dsimp only at hb
    cases hb
    exact Or.inl rfl
  | error pr =>
    rcases pr with ⟨ob, e⟩
    cases ob with
    | none => rw [htry] at hb; dsimp only at hb; exact absurd hb (by simp)
    | some b1 =>
      rw [htry] at hb
      dsimp only at hb
      cases hsh : env.saveH with
      | some e2 =>
        rw [hsh] at hb; dsimp only at hb; cases hb
        exact Or.inr ⟨b1, e, rfl, rfl⟩
      | none =>
        rw [hsh] at hb; dsimp only at hb; cases hb
        exact Or.inr ⟨b1, e, rfl, rfl⟩

theorem ncbiTry_multi {env : NcbiEnv} {prog db : String} {ev cv : ℚ}
    {b0 : BlastRunRec} {recs : List FastaRec}
    (hparse : env.parse = .ok recs) (hlen : recs.length ≠ 1) :
    ncbiTry env prog db ev cv b0 =
      .ok ({ b0 with
        status := JobStatus.ERROR, message := countMsg recs.length },
        [], validEmail b0.email) := by
  unfold ncbiTry
  rw [hparse]
  match recs, hlen with
  | [], _ => exact ncbiMailStep_out ..
  | [r], hlen => exact absurd rfl hlen
  | r1 :: r2 :: rs, _ => exact ncbiMailStep_out ..

theorem pasteurTry_multi {env : PasteurEnv} {prog db : String} {ev cv : ℚ}
    {b0 : BlastRunRec} {recs : List FastaRec}
    (hparse : env.parse = .ok recs) (hlen : recs.length ≠ 1) :
    pasteurTry env prog db ev cv b0 =
      .ok { b0 with
        status := JobStatus.ERROR, message := countMsg recs.length } := by
  unfold pasteurTry
  rw [hparse]
  match recs, hlen with
  | [], _ => rfl
  | [r], hlen => exact absurd rfl hlen
  | r1 :: r2 :: rs, _ => rfl

theorem mem_addHspCalls {nameOf : BlastAlignment → String} {ev cv : ℚ}
    {recs : List BlastRecord} {nm : String} {h : HSP} :
    (nm, h) ∈ addHspCalls nameOf ev cv recs ↔
      ∃ r ∈ recs, ∃ a ∈ r.alignments, nm = nameOf a ∧ h ∈ a.hsps ∧
        hspKept ev cv r.query_length h = true := by
  unfold addHspCalls keptHsps
  rw [List.mem_flatten]
  constructor
  · rintro ⟨l, hl, hmem⟩
    rw [List.mem_map] at hl
    rcases hl with ⟨r, hr, rfl⟩
    rw [List.mem_flatten] at hmem
    rcases hmem with ⟨l2, hl2, hmem2⟩
    rw [List.mem_map] at hl2
    rcases hl2 with ⟨a, ha, rfl⟩
    rw [List.mem_map] at hmem2
    rcases hmem2 with ⟨h2, hh2, heq⟩
    rw [List.mem_filter] at hh2
    cases heq
    exact ⟨r, hr, a, ha, rfl, hh2.1, hh2.2⟩
  · rintro ⟨r, hr, a, ha, rfl, hh, hk⟩
    refine ⟨_, List.mem_map_of_mem _ hr, ?_⟩
    rw [List.mem_flatten]
    refine ⟨_, List.mem_map_of_mem _ ha, ?_⟩
    exact List.mem_map_of_mem _ (List.mem_filter.mpr ⟨hh, hk⟩)

/-! # Claim C1 -/

/-- C1: in both backend paths (direct submit at lines 62–69 and delegated
poll at lines 250–257) a hit is registered in the Collected-Sequence Set
(has `add_hsp` called for it) iff its expectation value is strictly below
the e-value threshold and its aligned-length/query-length fraction is at
least the coverage threshold; at the boundaries, coverage exactly equal to
the threshold is kept and e-value exactly equal to the threshold is
rejected. -/
theorem C1_hit_filter_iff :
    (∀ (nameOf : BlastAlignment → String) (ev cv : ℚ)
        (recs : List BlastRecord) (nm : String) (h : HSP),
      (nm, h) ∈ addHspCalls nameOf ev cv recs ↔
        ∃ r ∈ recs, ∃ a ∈ r.alignments, nm = nameOf a ∧ h ∈ a.hsps ∧
          h.expect < ev ∧ h.align_length / r.query_length ≥ cv) ∧
    (∀ (ev cv ql : ℚ) (h : HSP),
      h.expect < ev → h.align_length / ql = cv → hspKept ev cv ql h = true) ∧
    (∀ (ev cv ql : ℚ) (h : HSP),
      h.expect = ev → hspKept ev cv ql h = false) := by
  refine ⟨?_, ?_, ?_⟩
  · intro nameOf ev cv recs nm h
    rw [mem_addHspCalls]
    simp only [hspKept, Bool.and_eq_true, decide_eq_true_eq, ge_iff_le]
  · intro ev cv ql h h1 h2
    simp [hspKept, h1, h2]
  · intro ev cv ql h heq
    simp [hspKept, heq]

/-- C1 witness: the filter theorem applied at concrete inputs, including
the kept boundary hit (coverage fraction exactly 1/2 at threshold 1/2)
and the rejected boundary hit (e-value exactly at threshold 1). -/
theorem C1_witness :
    (("x", ({ expect := 0, align_length := 1 } : HSP)) ∈
      addHspCalls (fun a => firstSpaceTokStr a.title) 1 (1/2)
        [{ query_length := 2,
           alignments :=
             [{ title := "x", hsps := [{ expect := 0, align_length := 1 }] }] }]) ∧
    hspKept 1 (1/2) 2 { expect := 0, align_length := 1 } = true ∧
    hspKept 1 1 2 { expect := 1, align_length := 1 } = false := by
  refine ⟨(C1_hit_filter_iff.1 _ 1 (1/2) _ "x" _).mpr ?_,
    C1_hit_filter_iff.2.1 1 (1/2) 2 _ (by norm_num) (by norm_num),
    C1_hit_filter_iff.2.2 1 1 2 _ rfl⟩
  refine ⟨{ query_length := 2,
            alignments :=
              [{ title := "x",
                 hsps := [{ expect := 0, align_length := 1 }] }] },
    by simp,
    { title := "x", hsps := [{ expect := 0, align_length := 1 }] },
    by simp, by decide, by simp, by norm_num, by norm_num⟩

/-! # Claim C2 -/

/-- C2 counterexample: the claim says no exception ever propagates out of
a task, but in `launch_ncbi_blast` the record fetch at line 46 is outside
the `try`: when it raises, the exception escapes and no ERROR status is
ever recorded. -/
theorem C2_counterexample :
    (launch_ncbi_blast envC2 "blastn" "nt" 1 0).escaped =
      some { msg := "DoesNotExist" } ∧
    (launch_ncbi_blast envC2 "blastn" "nt" 1 0).b = none := by
  constructor <;> rfl

/-- C2 (amended): every exception raised inside a task's `try` block is
caught there, the Job Record's status is set to ERROR with the exception
text as its message, and it does not propagate (provided the final save
after the handler does not itself raise); however exceptions raised while
fetching the Job Record before the `try` (both submit tasks) do propagate,
and in the rebuild task a failed record fetch makes the handler itself
raise (it reads the unbound local), which also propagates. -/
theorem C2_try_errors_caught :
    (∀ (env : NcbiEnv) (prog db : String) (ev cv : ℚ) (b0 b1 : BlastRunRec)
        (e : Exc),
      env.getRun = .ok b0 → env.save3 = none →
      ncbiTry env prog db ev cv b0 = .error (b1, e) →
      (launch_ncbi_blast env prog db ev cv).b =
        some { b1 with
          status := JobStatus.ERROR, message := e.msg } ∧
      (launch_ncbi_blast env prog db ev cv).escaped = none) ∧
    (∀ (env : NcbiEnv) (prog db : String) (ev cv : ℚ) (e : Exc),
      env.getRun = .error e →
      (launch_ncbi_blast env prog db ev cv).escaped = some e) ∧
    (∀ (env : PasteurEnv) (prog db : String) (ev cv : ℚ) (b0 b1 : BlastRunRec)
        (e : Exc),
      env.getRun = .ok b0 → env.save3 = none →
      pasteurTry env prog db ev cv b0 = .error (b1, e) →
      (launch_pasteur_blast env prog db ev cv).b =
        some { b1 with
          status := JobStatus.ERROR, message := e.msg } ∧
      (launch_pasteur_blast env prog db ev cv).escaped = none) ∧
    (∀ (env : PasteurEnv) (prog db : String) (ev cv : ℚ) (e : Exc),
      env.getRun = .error e →
      (launch_pasteur_blast env prog db ev cv).escaped = some e) ∧
    (∀ (env : BuildEnv) (b1 : BlastRunRec) (e : Exc),
      buildTry env = .error (some b1, e) → env.saveH = none →
      (build_tree env).b =
        some { b1 with
          status := JobStatus.ERROR, message := e.msg } ∧
      (build_tree env).escaped = none) ∧
    (∀ (env : BuildEnv) (e : Exc),
      env.getRun = .error e → (build_tree env).escaped ≠ none) := by
  refine ⟨?_, ?_, ?_, ?_, ?_, ?_⟩
  · intro env prog db ev cv b0 b1 e hget hs3 htry
    unfold launch_ncbi_blast
    rw [hget]
    dsimp only
    rw [htry]
    dsimp only
    rw [hs3]
    exact ⟨rfl, rfl⟩
  · intro env prog db ev cv e hget
    unfold launch_ncbi_blast
    rw [hget]
  · intro env prog db ev cv b0 b1 e hget hs3 htry
    unfold launch_pasteur_blast
    rw [hget]
    dsimp only
    rw [htry]
    dsimp only
    rw [hs3]
    exact ⟨rfl, rfl⟩
  · intro env prog db ev cv e hget
    unfold launch_pasteur_blast
    rw [hget]
  · intro env b1 e htry hsh
    unfold build_tree
    rw [htry]
    dsimp only
    rw [hsh]
    exact ⟨rfl, rfl⟩
  · intro env e hget
    have htry : buildTry env = .error (none, e) := by
      unfold buildTry; rw [hget]
    unfold build_tree
    rw [htry]
    simp

/-- C2 witness: the amended theorem applied at a concrete environment in
which parsing the FASTA input raises inside the `try`. -/
theorem C2_witness :
    (launch_ncbi_blast envW2 "blastn" "nt" 1 0).b =
      some { sampleRun with
        status := JobStatus.ERROR, message := "bad fasta" } ∧
    (launch_ncbi_blast envW2 "blastn" "nt" 1 0).escaped = none :=
  C2_try_errors_caught.1 envW2 "blastn" "nt" 1 0 sampleRun sampleRun
    { msg := "bad fasta" } rfl rfl rfl

/-! # Claim C7 -/

/-- C7: for every submitted FASTA input whose parsed record count is not
exactly 1 (including zero), submission through either backend sets the
Job Record's status to ERROR with the record-count message, which contains
the exact count (`countMsg n` ends with the decimal representation of
`n`). -/
theorem C7_multi_record_error :
    (∀ (env : NcbiEnv) (prog db : String) (ev cv : ℚ) (b0 : BlastRunRec)
        (recs : List FastaRec),
      env.getRun = .ok b0 → env.parse = .ok recs → recs.length ≠ 1 →
      env.save3 = none →
      (launch_ncbi_blast env prog db ev cv).b =
        some { b0 with
          status := JobStatus.ERROR, message := countMsg recs.length }) ∧
    (∀ (env : PasteurEnv) (prog db : String) (ev cv : ℚ) (b0 : BlastRunRec)
        (recs : List FastaRec),
      env.getRun = .ok b0 → env.parse = .ok recs → recs.length ≠ 1 →
      env.save3 = none →
      (launch_pasteur_blast env prog db ev cv).b =
        some { b0 with
          status := JobStatus.ERROR, message := countMsg recs.length }) ∧
    (∀ n : Nat, ∃ pre : String, countMsg n = pre ++ toString n) := by
  refine ⟨?_, ?_, fun n => ⟨"More than one record in the fasta file! ", rfl⟩⟩
  · intro env prog db ev cv b0 recs hget hparse hlen hs3
    rw [launch_ncbi_of_ok hget hs3 (ncbiTry_multi hparse hlen)]
  · intro env prog db ev cv b0 recs hget hparse hlen hs3
    rw [launch_pasteur_of_ok hget hs3 (pasteurTry_multi hparse hlen)]

/-- C7 witness: the theorem applied at concrete environments with two
records (direct backend) and zero records (delegated backend). -/
theorem C7_witness :
    (launch_ncbi_blast envC7n "blastn" "nt" 1 0).b =
      some { sampleRun with
        status := JobStatus.ERROR, message := countMsg 2 } ∧
    (launch_pasteur_blast envC7p "blastn" "nt" 1 0).b =
      some { sampleRun with
        status := JobStatus.ERROR, message := countMsg 0 } :=
  ⟨C7_multi_record_error.1 envC7n "blastn" "nt" 1 0 sampleRun [fr1, fr2]
      rfl rfl (by decide) rfl,
    C7_multi_record_error.2.1 envC7p "blastn" "nt" 1 0 sampleRun []
      rfl rfl (by decide) rfl⟩

/-! # Claim C3 -/

/-- C3 counterexample: the claim says a run reaching ERROR always leaves a
non-empty diagnostic message and a run reaching FINISHED does not
overwrite the message; but the poll task first overwrites the message
with the remote `misc_info` for every record: a remote error state with
empty info yields ERROR with an empty message, and a record reaching
FINISHED has its message overwritten (from "prior" to the remote info)
by the same run. -/
theorem C3_counterexample :
    (checkblastruns env3a).finals =
      [{ runPrior with message := "", status := JobStatus.ERROR }] ∧
    (checkblastruns env3b).finals =
      [{ runPrior with
         message := "newinfo", status := JobStatus.FINISHED, tree := "T" }] ∧
    runPrior.message = "prior" := by
  refine ⟨by decide, by decide, rfl⟩

/-- C3 (amended): when a task run brings a Job Record to FINISHED, the
record's tree is non-empty (given the tree builder returns non-empty
trees, modelled from the spec) and its message equals the value it had
when the record was fetched — except in the poll task, where the message
equals the remote info text refreshed earlier in the same run.  When a
submit or rebuild run brings a record to ERROR, the message is non-empty
(the exception text, assumed non-empty, or a fixed non-empty string); the
poll task may reach ERROR with an empty message (see the counterexample),
so no such guarantee is stated for it. -/
theorem C3_terminal_invariants :
    (∀ (env : NcbiEnv) (prog db : String) (ev cv : ℚ) (b0 b : BlastRunRec),
      env.getRun = .ok b0 → NcbiTreeNonEmpty env →
      (launch_ncbi_blast env prog db ev cv).b = some b →
      b.status = .FINISHED → b.tree ≠ "" ∧ b.message = b0.message) ∧
    (∀ (env : NcbiEnv) (prog db : String) (ev cv : ℚ) (b0 b : BlastRunRec),
      env.getRun = .ok b0 → NcbiExcMsgs env →
      (launch_ncbi_blast env prog db ev cv).b = some b →
      b.status = .ERROR → b.message ≠ "") ∧
    (∀ (env : PasteurEnv) (prog db : String) (ev cv : ℚ) (b0 b : BlastRunRec),
      env.getRun = .ok b0 → PasteurExcMsgs env →
      (launch_pasteur_blast env prog db ev cv).b = some b →
      b.status = .ERROR → b.message ≠ "") ∧
    (∀ (env : BuildEnv) (b : BlastRunRec),
      BuildTreeNonEmpty env → (build_tree env).b = some b →
      (b.status = .FINISHED →
        b.tree ≠ "" ∧ ∃ b0, env.getRun = .ok b0 ∧ b.message = b0.message) ∧
      (BuildExcMsgs env → b.status = .ERROR → b.message ≠ "")) ∧
    (∀ (env : PollRecEnv) (b b2 : BlastRunRec) (m : Bool),
      pollRecord env b = .ok (b2, m) → PollTreeNonEmpty env →
      b2.status = .FINISHED →
      b2.tree ≠ "" ∧
        ∃ st infos, env.showDataset = .ok (st, infos) ∧ b2.message = infos) := by
  refine ⟨?_, ?_, ?_, ?_, ?_⟩
  · intro env prog db ev cv b0 b hget htree hb hfin
    rcases launch_ncbi_b_cases hget hb with ⟨subj, m, htry⟩ | ⟨b1, e, htry, rfl⟩
    · rcases ncbiTry_ok_cases htry with ⟨hm, hcase | hcase⟩
      · rcases hcase with ⟨_, ⟨t, hnj, htr⟩, hmsg⟩
        exact ⟨htr ▸ htree t hnj, hmsg⟩
      · exact absurd (hcase.1.symm.trans hfin) (by decide)
    · simp at hfin
  · intro env prog db ev cv b0 b hget hex hb herr
    rcases launch_ncbi_b_cases hget hb with ⟨subj, m, htry⟩ | ⟨b1, e, htry, rfl⟩
    · rcases ncbiTry_ok_cases htry with ⟨hm, hcase | hcase⟩
      · exact absurd (hcase.1.symm.trans herr) (by decide)
      · rcases hcase.2 with ⟨n, hn, hmsg⟩
        rw [hmsg]
        exact countMsg_ne_empty n
    · simpa using ncbiTry_error_msgs hex htry
  · intro env prog db ev cv b0 b hget hex hb herr
    rcases launch_pasteur_b_cases hget hb with htry | ⟨b1, e, htry, rfl⟩
    · rcases pasteurTry_ok_cases htry with hcase | hcase
      · exact absurd (hcase.1.symm.trans herr) (by decide)
      · rcases hcase.2 with hmsg | hmsg | ⟨n, hn, hmsg⟩
        · rw [hmsg]; decide
        · rw [hmsg]; exact wrongProg_ne_empty prog
        · rw [hmsg]; exact countMsg_ne_empty n
    · simpa using pasteurTry_error_msgs hex htry
  · intro env b htree hb
    rcases build_tree_b_cases hb with htry | ⟨b1, e, htry, rfl⟩
    · rcases buildTry_ok htry with ⟨hfin, b0, t, hget, hnj, htr, hmsg⟩
      constructor
      · intro _
        exact ⟨htr ▸ htree t hnj, b0, hget, hmsg⟩
      · intro hex herr
        exact absurd (hfin.symm.trans herr) (by decide)
    · constructor
      · intro hfin
        simp at hfin
      · intro hex herr
        simpa using buildTry_error_msgs hex htry
  · intro env b b2 m hrec htree hfin
    rcases pollRecord_ok_facts hrec with ⟨hm, ⟨st, infos, hsd, hmsg⟩, hfint⟩
    rcases hfint hfin with ⟨t, hnj, htr⟩
    exact ⟨htr ▸ htree t hnj, st, infos, hsd, hmsg⟩

/-- C3 witness: the amended theorem applied at a concrete environment in
which the direct submit task reaches FINISHED. -/
theorem C3_witness : bW6.tree ≠ "" ∧ bW6.message = runEmail.message :=
  C3_terminal_invariants.1 envW6 "blastn" "nt" 1 0 runEmail bW6 rfl
    (by intro t ht; rw [show envW6.njTree = Except.ok "T" from rfl] at ht
        cases ht; decide)
    (by decide) rfl

/-! # Claim C4 -/

/-- C4 counterexample: the claim says the poll-cycle lock is always
released; but when `galaxy_connection()` raises before the loop binds its
first record, the `except` handler reads the unbound loop variable and
raises a NameError, so `release_lock()` at line 305 is never reached. -/
theorem C4_counterexample :
    (checkblastruns env4).ran = true ∧
    (checkblastruns env4).lockReleased = false := by
  constructor <;> rfl

/-- C4 (amended): in a poll cycle that acquired the lock, the lock is
released iff the cycle does not propagate an exception — it is released
on normal completion and when the cycle-level handler completes, but a
failure before the first record is bound (or a failing handler save)
propagates and leaves the lock to expire only by its 5-minute lease. -/
theorem C4_lock_release_iff :
    ∀ env : PollEnv, (checkblastruns env).ran = true →
      ((checkblastruns env).lockReleased = true ↔
        (checkblastruns env).escaped = none) := by
  intro env hran
  unfold checkblastruns at hran ⊢
  by_cases hl : env.lockFree = true
  · have hcond : ¬((!env.lockFree) = true) := by rw [hl]; decide
    rw [if_neg hcond]
    cases hg : env.galaxyConn with
    | some e => simp
    | none =>
      dsimp only
      rcases hpl : pollLoop env.recEnv 0 (pollFilter env.db) with ⟨fs, ms, exc⟩
      cases exc with
      | none => simp
      | some q =>
        rcases q with ⟨lastP, bMem, e, rest⟩
        dsimp only
        cases hh : env.handlerSave with
        | some e2 => simp
        | none => simp
  · have hf : env.lockFree = false := by
      revert hl; cases env.lockFree <;> simp
    have hcond : (!env.lockFree) = true := by rw [hf]; decide
    rw [if_pos hcond] at hran
    simp at hran

/-- C4 witness: the amended theorem applied at a concrete environment in
which the cycle runs to completion. -/
theorem C4_witness : (checkblastruns env3a).lockReleased = true :=
  (C4_lock_release_iff env3a (by decide)).mpr (by decide)

/-! # Claim C5 -/

/-- C5 counterexample: the claim says no per-record change caused by a
cycle-level failure is persisted; but the `except` handler at lines
300–302 sets the current record to ERROR with the exception text and
saves it: with two pending records and a failure on the first, the first
record's persisted status changes from PENDING to ERROR. -/
theorem C5_counterexample :
    (checkblastruns env5).finals =
      [{ runPrior with status := JobStatus.ERROR, message := "boom" },
        sampleRun] ∧
    runPrior.status = JobStatus.PENDING := by
  exact ⟨by decide, rfl⟩

/-- C5 (amended): when an exception aborts a poll cycle (and the handler's
own save succeeds), the records after the one being processed keep their
prior state and are retried next cycle, the error is logged and nothing
propagates; but the record being processed when the exception occurred is
persisted with status ERROR and the exception text as message by the
cycle-level handler. -/
theorem C5_cycle_failure :
    ∀ (env : PollEnv) (fs : List BlastRunRec) (ms : List Bool)
      (lastP bMem : BlastRunRec) (e : Exc) (rest : List BlastRunRec),
      env.lockFree = true → env.galaxyConn = none → env.handlerSave = none →
      pollLoop env.recEnv 0 (pollFilter env.db) =
        (fs, ms, some (lastP, bMem, e, rest)) →
      (checkblastruns env).finals =
        fs ++ ({ bMem with
          status := JobStatus.ERROR, message := e.msg } :: rest) ∧
      (pollFilter env.db).drop (fs.length + 1) = rest ∧
      (checkblastruns env).escaped = none := by
  intro env fs ms lastP bMem e rest hl hg hh hpl
  have hdrop := pollLoop_drop env.recEnv (pollFilter env.db) 0 hpl
  unfold checkblastruns
  have hcond : ¬((!env.lockFree) = true) := by rw [hl]; decide
  rw [if_neg hcond, hg]
  dsimp only
  rw [hpl]
  dsimp only
  rw [hh]
  exact ⟨rfl, hdrop, rfl⟩

/-- C5 witness: the amended theorem applied at a concrete environment with
two pending records and a failure on the first: the second is untouched. -/
theorem C5_witness : (pollFilter env5.db).drop 1 = [sampleRun] :=
  (C5_cycle_failure env5 [] [] runPrior runPrior { msg := "boom" }
    [sampleRun] rfl rfl rfl (by rfl)).2.1

/-! # Claim C6 -/

/-- C6 counterexample: the claim says every run transitioning a record to
FINISHED or ERROR notifies when a valid address is on file; but
`launch_pasteur_blast` contains no notification code at all: with a valid
address on file and an unsupported program it reaches ERROR without
invoking the notifier. -/
theorem C6_counterexample :
    ((launch_pasteur_blast envC6 "blastz" "nt" 1 0).b.map
      (fun b => (b.status, b.message, validEmail b.email))) =
      some (JobStatus.ERROR, "Wrong blast program blastz", true) ∧
    (launch_pasteur_blast envC6 "blastz" "nt" 1 0).mailed = false := by
  exact ⟨by decide, rfl⟩

/-- C6 (amended): the direct submit task notifies exactly when its `try`
block completes (FINISHED, or ERROR via the record-count check) and the
address on file matches the pattern — an ERROR reached via an exception
does not notify; the delegated submit task never notifies; the poll task,
for each record it processes to completion, notifies exactly when the
record's resulting status is FINISHED or ERROR and the address matches —
a record set to ERROR by the cycle-level handler is not notified. -/
theorem C6_notify :
    (∀ (env : NcbiEnv) (prog db : String) (ev cv : ℚ) (b0 b : BlastRunRec)
        (subj : List (String × HSP)) (m : Bool),
      env.getRun = .ok b0 →
      ncbiTry env prog db ev cv b0 = .ok (b, subj, m) →
      (launch_ncbi_blast env prog db ev cv).mailed = validEmail b.email) ∧
    (∀ (env : NcbiEnv) (prog db : String) (ev cv : ℚ) (b0 b1 : BlastRunRec)
        (e : Exc),
      env.getRun = .ok b0 →
      ncbiTry env prog db ev cv b0 = .error (b1, e) →
      (launch_ncbi_blast env prog db ev cv).mailed = false) ∧
    (∀ (env : PasteurEnv) (prog db : String) (ev cv : ℚ),
      (launch_pasteur_blast env prog db ev cv).mailed = false) ∧
    (∀ (env : PollRecEnv) (b b2 : BlastRunRec) (m : Bool),
      pollRecord env b = .ok (b2, m) →
      m = (validEmail b2.email &&
        (b2.status == JobStatus.ERROR || b2.status == JobStatus.FINISHED))) ∧
    (∀ (env : PollEnv) (fs : List BlastRunRec) (ms : List Bool)
        (lastP bMem : BlastRunRec) (e : Exc) (rest : List BlastRunRec),
      env.lockFree = true → env.galaxyConn = none →
      pollLoop env.recEnv 0 (pollFilter env.db) =
        (fs, ms, some (lastP, bMem, e, rest)) →
      (checkblastruns env).mails = ms ∧ ms.length = fs.length) := by
  refine ⟨?_, ?_, ?_, ?_, ?_⟩
  · intro env prog db ev cv b0 b subj m hget htry
    rw [launch_ncbi_mailed_ok hget htry]
    exact (ncbiTry_ok_cases htry).1
  · intro env prog db ev cv b0 b1 e hget htry
    exact launch_ncbi_mailed_error hget htry
  · exact launch_pasteur_mailed
  · intro env b b2 m hrec
    exact (pollRecord_ok_facts hrec).1
  · intro env fs ms lastP bMem e rest hl hg hpl
    have hlen := pollLoop_mails_length env.recEnv (pollFilter env.db) 0 hpl
    unfold checkblastruns
    have hcond : ¬((!env.lockFree) = true) := by rw [hl]; decide
    rw [if_neg hcond, hg]
    dsimp only
    rw [hpl]
    dsimp only
    cases hh : env.handlerSave with
    | some e2 => exact ⟨rfl, hlen⟩
    | none => exact ⟨rfl, hlen⟩

/-- C6 witness: the amended theorem applied at a concrete environment in
which the direct submit task reaches FINISHED with a valid address. -/
theorem C6_witness :
    (launch_ncbi_blast envW6 "blastn" "nt" 1 0).mailed = validEmail bW6.email :=
  C6_notify.1 envW6 "blastn" "nt" 1 0 runEmail bW6 [] true rfl rfl

end NGPhylo
